import Mathlib

/-!
# Performance-oracle consensus engine: shallow embedding and verification

This file embeds the multi-attester performance consensus engine of the
pulsartrack performance-oracle contract (the code shown in
`ORACLE_CONSENSUS_FIX.md`: `_try_build_consensus` and the attester-index
excerpt of `submit_attestation`) and proves/refutes the specified properties.

Modelling conventions:
* Machine integers (`u64`, `u32`) are `Nat` with explicit `% 2 ^ 64` /
  `% 2 ^ 32` or bound checks where overflow or casts matter.
* The Soroban persistent key-value storage is modelled as association lists
  keyed by the same composite keys the contract uses
  (`Attestation(campaign_id, attester)`, `CampaignAttesterIndex(campaign_id, i)`,
  `AttestationCount(campaign_id)`, the per-campaign consensus record, and the
  instance-storage `MinAttesters`).
* A Rust panic (a failed `expect`, division by zero, or an
  overflow-checked addition) aborts the whole contract invocation with no
  state written; this is modelled by `Except`: an `.error` result means the
  transaction reverted and the pre-state stands (`tryBuildTx` / `submitTx`
  make that revert semantics explicit).
* TTL extension calls (`extend_ttl`) have no observable effect on the values
  stored and are omitted.
-/

namespace PulsarTrack

/-- Attester identities are opaque handles; modelled as `Nat`. -/
abbrev Address := Nat

/-- One reporter's claim about one campaign (struct `PerformanceAttestation`).
Field list follows the spec's data model (§3); the consensus code reads
`impressions_verified`, `clicks_verified`, `fraud_rate`, `quality_score`. -/
structure PerformanceAttestation where
  campaign_id : Nat
  attester : Address
  impressions_verified : Nat
  clicks_verified : Nat
  fraud_rate : Nat
  quality_score : Nat
  submitted_at : Nat
deriving DecidableEq, Repr

/-- The derived per-campaign consensus record (struct `OracleConsensus`). -/
structure OracleConsensus where
  campaign_id : Nat
  total_attesters : Nat
  avg_impressions : Nat
  avg_clicks : Nat
  avg_fraud_rate : Nat
  avg_quality_score : Nat
  consensus_reached : Bool
  last_updated : Nat
deriving DecidableEq, Repr

/-- Association-list lookup, modelling `env.storage().persistent().get(&key)`. -/
def alGet {α β : Type} [DecidableEq α] (l : List (α × β)) (k : α) : Option β :=
  (l.find? (fun p => decide (p.1 = k))).map Prod.snd

/-- Association-list update, modelling `env.storage().persistent().set(&key, &v)`:
the key's previous binding (if any) is replaced. -/
def alSet {α β : Type} [DecidableEq α] (l : List (α × β)) (k : α) (v : β) :
    List (α × β) :=
  (k, v) :: l.filter (fun p => decide (p.1 ≠ k))

/-- The contract's storage, one field per `DataKey` family, plus the external
Attester Registry (modelled as the set of currently authorized addresses,
consulted read-only by `submit_attestation`). -/
structure Storage where
  /-- Attester Registry collaborator: currently authorized attesters. -/
  authorized : List Address
  /-- Instance storage `DataKey::MinAttesters` (`None` = never configured). -/
  min_attesters_cfg : Option Nat
  /-- `DataKey::Attestation(campaign_id, attester)`. -/
  attestations : List ((Nat × Address) × PerformanceAttestation)
  /-- `DataKey::CampaignAttesterIndex(campaign_id, index)`. -/
  attesterIndex : List ((Nat × Nat) × Address)
  /-- `DataKey::AttestationCount(campaign_id)`. -/
  attestationCount : List (Nat × Nat)
  /-- The per-campaign `OracleConsensus` record store. -/
  consensus : List (Nat × OracleConsensus)
deriving DecidableEq, Repr

/-- Failure taxonomy. `Unauthorized` and `InvalidMeasurement` are the typed
rejections of `submit`; `IndexNotFound` / `AttestationNotFound` model the two
`expect` panics in `_try_build_consensus`; `Overflow` models an
overflow-checked accumulator addition aborting; `DivideByZero` models the
Rust panic of `u64` division by a zero divisor. -/
inductive OracleError where
  | Unauthorized
  | InvalidMeasurement
  | IndexNotFound
  | AttestationNotFound
  | Overflow
  | DivideByZero
deriving DecidableEq, Repr

/-- The four mutable accumulators of `_try_build_consensus`. -/
structure Sums where
  sum_impressions : Nat
  sum_clicks : Nat
  sum_fraud_rate : Nat
  sum_quality_score : Nat
deriving DecidableEq, Repr

/-- Modelled from the spec: a `u64` addition checked against the 64-bit
accumulator width (the spec's `Overflow` policy demands abort-not-wrap; the
Cargo overflow-checks profile is not part of the sources). -/
def checkedAdd64 (a b : Nat) : Except OracleError Nat :=
  if a + b < 2 ^ 64 then .ok (a + b) else .error .Overflow

/-- One iteration of the `for i in 0..total_attesters` loop of
`_try_build_consensus`: read the attester at index `i` (`expect`), read that
attester's attestation (`expect`), and add its four fields into the sums. -/
def readAndAdd (st : Storage) (campaign_id : Nat) (s : Sums) (i : Nat) :
    Except OracleError Sums :=
  match alGet st.attesterIndex (campaign_id, i) with
  | none => .error .IndexNotFound
  | some attester =>
    match alGet st.attestations (campaign_id, attester) with
    | none => .error .AttestationNotFound
    | some a => do
      let si ← checkedAdd64 s.sum_impressions a.impressions_verified
      let sc ← checkedAdd64 s.sum_clicks a.clicks_verified
      let sf ← checkedAdd64 s.sum_fraud_rate a.fraud_rate
      let sq ← checkedAdd64 s.sum_quality_score a.quality_score
      .ok ⟨si, sc, sf, sq⟩

/-- `_try_build_consensus(env, campaign_id, total_attesters)` from
`ORACLE_CONSENSUS_FIX.md`: read `min_attesters` (default 3); return early if
`total_attesters < min_attesters`; otherwise sum every indexed attestation,
divide each sum by `total_attesters` (`u64` integer division, truncation;
division by zero panics), cast the fraud/quality averages `as u32`, and store
the `OracleConsensus` record with `consensus_reached: true`. -/
def tryBuildConsensus (st : Storage) (campaign_id : Nat) (total_attesters : Nat)
    (now : Nat) : Except OracleError Storage :=
  let min_attesters := st.min_attesters_cfg.getD 3
  if total_attesters < min_attesters then .ok st
  else do
    let s ← (List.range total_attesters).foldlM (readAndAdd st campaign_id)
      ⟨0, 0, 0, 0⟩
    if total_attesters = 0 then .error .DivideByZero
    else
      let consensusRec : OracleConsensus :=
        ⟨campaign_id, total_attesters,
          s.sum_impressions / total_attesters,
          s.sum_clicks / total_attesters,
          (s.sum_fraud_rate / total_attesters) % 2 ^ 32,
          (s.sum_quality_score / total_attesters) % 2 ^ 32,
          true, now⟩
      .ok { st with consensus := alSet st.consensus campaign_id consensusRec }

/-- Modelled from the spec: the declared bounded ranges of the measurement
fields (§3, §7). `impressions_verified` / `clicks_verified` are `u64`
counters; `fraud_rate` is a basis-point score (0–10000) and `quality_score`
a 0–100 score, the conventions used by the spec's examples. -/
def validMeasurement (impressions clicks fraud_rate quality_score : Nat) : Bool :=
  impressions < 2 ^ 64 && clicks < 2 ^ 64 &&
    fraud_rate ≤ 10000 && quality_score ≤ 100

/-- `submit_attestation`. The index write at position `count` is the code
shown in `ORACLE_CONSENSUS_FIX.md` (unconditional: it runs on every
submission). Modelled from the spec: the elided parts of the function — the
authorization precondition (`Unauthorized`), the bounded-range precondition
(`InvalidMeasurement`), the write of the attestation record keyed
`(campaign_id, attester)`, the attester count incremented only for a
first-time attester (§4.1), and the synchronous trailing call to the
consensus builder with the updated count (§4.1/§4.2). -/
def submit_attestation (st : Storage) (attester : Address) (campaign_id : Nat)
    (impressions clicks fraud_rate quality_score : Nat) (now : Nat) :
    Except OracleError Storage :=
  if ¬ (attester ∈ st.authorized) then .error .Unauthorized
  else if ¬ (validMeasurement impressions clicks fraud_rate quality_score) then
    .error .InvalidMeasurement
  else
    let count := (alGet st.attestationCount campaign_id).getD 0
    let idx1 := alSet st.attesterIndex (campaign_id, count) attester
    let st1 := { st with attesterIndex := idx1 }
    let isNew := (alGet st.attestations (campaign_id, attester)).isNone
    let att : PerformanceAttestation :=
      ⟨campaign_id, attester, impressions, clicks, fraud_rate, quality_score, now⟩
    let atts2 := alSet st1.attestations (campaign_id, attester) att
    let st2 := { st1 with attestations := atts2 }
    let newCount := if isNew then count + 1 else count
    let cnt3 := alSet st2.attestationCount campaign_id newCount
    let st3 := { st2 with attestationCount := cnt3 }
    tryBuildConsensus st3 campaign_id newCount now

/-- Modelled from the spec: `get_consensus(campaign_id) -> OracleConsensus |
NotReached` (§4.3); `none` is the `NotReached` answer. -/
def get_consensus (st : Storage) (campaign_id : Nat) : Option OracleConsensus :=
  alGet st.consensus campaign_id

/-- Transaction-boundary semantics of a `submit` invocation: a typed failure
or a panic reverts every write, so the pre-state stands. -/
def submitTx (st : Storage) (attester : Address) (campaign_id : Nat)
    (impressions clicks fraud_rate quality_score : Nat) (now : Nat) : Storage :=
  match submit_attestation st attester campaign_id impressions clicks
      fraud_rate quality_score now with
  | .ok st' => st'
  | .error _ => st

/-- One `submit` call's inputs, for running traces of submissions. -/
structure SubmitOp where
  attester : Address
  impressions : Nat
  clicks : Nat
  fraud_rate : Nat
  quality_score : Nat
deriving DecidableEq, Repr

/-- Run a list of `submit_attestation` calls for one campaign in order,
stopping at the first failure (which would revert that call's transaction). -/
def runSubmits (st : Storage) (campaign_id : Nat) (now : Nat) :
    List SubmitOp → Except OracleError Storage
  | [] => .ok st
  | op :: rest => do
    let st' ← submit_attestation st op.attester campaign_id op.impressions
      op.clicks op.fraud_rate op.quality_score now
    runSubmits st' campaign_id now rest

/-- A freshly deployed oracle: `auth` authorized attesters, `minA` the
configured `MinAttesters` (none = default 3), no attestations, no consensus. -/
def initStorage (auth : List Address) (minA : Option Nat) : Storage :=
  ⟨auth, minA, [], [], [], []⟩

/-- Field sums of a list of submissions, as the consensus builder sums them. -/
def sumImpr (ops : List SubmitOp) : Nat := (ops.map (·.impressions)).sum

def sumClicks (ops : List SubmitOp) : Nat := (ops.map (·.clicks)).sum

def sumFraud (ops : List SubmitOp) : Nat := (ops.map (·.fraud_rate)).sum

def sumQual (ops : List SubmitOp) : Nat := (ops.map (·.quality_score)).sum

/-- The attestations `_try_build_consensus` would read: position `i` of the
index, then that attester's stored attestation, for `i < n`. -/
def indexedAttestations (st : Storage) (campaign_id n : Nat) :
    List (Option PerformanceAttestation) :=
  (List.range n).map (fun i =>
    (alGet st.attesterIndex (campaign_id, i)).bind
      (fun a => alGet st.attestations (campaign_id, a)))

/-- Field sums of a list of attestation records. -/
def attSums (atts : List PerformanceAttestation) : Sums :=
  ⟨(atts.map (·.impressions_verified)).sum, (atts.map (·.clicks_verified)).sum,
    (atts.map (·.fraud_rate)).sum, (atts.map (·.quality_score)).sum⟩

/-- Transaction-boundary semantics of the consensus computation in isolation:
a panic (failed `expect`, overflow, division by zero) reverts every write. -/
def tryBuildTx (st : Storage) (campaign_id total_attesters now : Nat) : Storage :=
  match tryBuildConsensus st campaign_id total_attesters now with
  | .ok st' => st'
  | .error _ => st

/-- The authoritative attester count of a campaign
(`AttestationCount(campaign_id)`, absent = 0). -/
def countOf (st : Storage) (campaign_id : Nat) : Nat :=
  (alGet st.attestationCount campaign_id).getD 0

/-- The configured quorum floor (`MinAttesters`, default 3). -/
def minOf (st : Storage) : Nat := st.min_attesters_cfg.getD 3

/-- The attestation record a submission `op` stores for campaign `c` at `now`. -/
def opAtt (c now : Nat) (op : SubmitOp) : PerformanceAttestation :=
  ⟨c, op.attester, op.impressions, op.clicks, op.fraud_rate, op.quality_score, now⟩

/-- Specification-side description of the consensus record the builder writes
for a campaign whose stored attestations are exactly those of `ops`
(in index order): integer-truncated mean of each field, `total_attesters` the
number of submissions, `consensus_reached` true. -/
def consensusOf (c : Nat) (ops : List SubmitOp) (now : Nat) : OracleConsensus :=
  ⟨c, ops.length, sumImpr ops / ops.length, sumClicks ops / ops.length,
    (sumFraud ops / ops.length) % 2 ^ 32, (sumQual ops / ops.length) % 2 ^ 32,
    true, now⟩

/-- Storage after the consensus builder's final write for campaign `c`. -/
def writeConsensus (st : Storage) (c : Nat) (k : OracleConsensus) : Storage :=
  { st with consensus := alSet st.consensus c k }

/-- The consensus record the builder writes when the `n` indexed attestations
it read are `atts`: each average the integer-truncated quotient of the field
sum by `n`, the fraud/quality averages reduced by the `as u32` cast. -/
def builtConsensus (c n now : Nat) (atts : List PerformanceAttestation) :
    OracleConsensus :=
  ⟨c, n, (attSums atts).sum_impressions / n, (attSums atts).sum_clicks / n,
    ((attSums atts).sum_fraud_rate / n) % 2 ^ 32,
    ((attSums atts).sum_quality_score / n) % 2 ^ 32, true, now⟩

/-- The per-campaign view a trace of first-time submissions `done` leaves in
storage: the count equals the number of submissions, position `i` of the index
holds the `i`-th submitter, each submitter's attestation is stored with its
submitted values, and no other attester has an attestation. -/
def CampaignView (st : Storage) (c now : Nat) (done : List SubmitOp) : Prop :=
  countOf st c = done.length ∧
  (∀ i op, done[i]? = some op →
    alGet st.attesterIndex (c, i) = some op.attester) ∧
  (∀ op ∈ done, alGet st.attestations (c, op.attester) = some (opAtt c now op)) ∧
  (∀ a : Address, (∀ op ∈ done, op.attester ≠ a) →
    alGet st.attestations (c, a) = none)

/-- The attester count `submit_attestation` passes to the consensus builder:
incremented only when the attester had no prior attestation for the campaign. -/
def newCountAfter (st : Storage) (attester : Address) (campaign_id : Nat) : Nat :=
  let count := (alGet st.attestationCount campaign_id).getD 0
  if (alGet st.attestations (campaign_id, attester)).isNone then count + 1
  else count

/-- The attestation-store writes a `submit_attestation` call performs before
triggering the consensus builder: the (unconditional) index entry at the
current count, the attestation record, and the updated count. -/
def submitWrites (st : Storage) (attester : Address)
    (campaign_id impressions clicks fraud_rate quality_score now : Nat) :
    Storage :=
  let count := (alGet st.attestationCount campaign_id).getD 0
  { st with
    attesterIndex := alSet st.attesterIndex (campaign_id, count) attester
    attestations := alSet st.attestations (campaign_id, attester)
      ⟨campaign_id, attester, impressions, clicks, fraud_rate, quality_score,
        now⟩
    attestationCount := alSet st.attestationCount campaign_id
      (newCountAfter st attester campaign_id) }

/-! ## Basic lemmas about the storage model -/

theorem find?_filter_of_imp {α : Type} (l : List α) (f g : α → Bool)
    (h : ∀ p, f p = true → g p = true) :
    (l.filter g).find? f = l.find? f := by
  induction l with
  | nil => rfl
  | cons a t ih =>
    by_cases hg : g a = true
    · simp only [List.filter_cons, hg, if_true, List.find?]
      cases hf : f a <;> simp [List.find?, hf, ih]
    · have hf : f a = false := by
        cases hfa : f a
        · rfl
        · exact absurd (h a hfa) (by simp [hg])
      simp [List.filter_cons, hg, List.find?, hf, ih]

theorem alGet_alSet_self {α β : Type} [DecidableEq α] (l : List (α × β))
    (k : α) (v : β) : alGet (alSet l k v) k = some v := by
  simp [alGet, alSet, List.find?]

theorem alGet_alSet_ne {α β : Type} [DecidableEq α] (l : List (α × β))
    (k k' : α) (v : β) (h : k' ≠ k) : alGet (alSet l k v) k' = alGet l k' := by
  have h' : ¬ k = k' := fun e => h (Eq.symm e)
  have hk : decide (k = k') = false := by simp [h']
  simp only [alGet, alSet, List.find?, hk]
  rw [find?_filter_of_imp]
  intro p hp
  simp only [decide_eq_true_eq] at hp
  simp [hp, h]

theorem exceptBind_ok {ε α β : Type} (x : Except ε α) (f : α → Except ε β)
    (b : β) : (x >>= f) = .ok b ↔ ∃ a, x = .ok a ∧ f a = .ok b := by
  cases x <;> simp [Bind.bind, Except.bind]

theorem exceptBind_error {ε α β : Type} (x : Except ε α) (f : α → Except ε β)
    (e : ε) : (x >>= f) = .error e ↔
      x = .error e ∨ ∃ a, x = .ok a ∧ f a = .error e := by
  cases x <;> simp [Bind.bind, Except.bind]

/-! ## The accumulation loop of the consensus builder -/

theorem indexedAttestations_succ (st : Storage) (c n : Nat) :
    indexedAttestations st c (n + 1) = indexedAttestations st c n ++
      [(alGet st.attesterIndex (c, n)).bind
        (fun a => alGet st.attestations (c, a))] := by
  simp [indexedAttestations, List.range_succ]

theorem indexedAttestations_length (st : Storage) (c n : Nat) :
    (indexedAttestations st c n).length = n := by
  simp [indexedAttestations]

theorem checkedAdd64_ok (a b : Nat) (h : a + b < 2 ^ 64) :
    checkedAdd64 a b = .ok (a + b) := by
  simp only [checkedAdd64, if_pos h]

theorem readAndAdd_ok (st : Storage) (c : Nat) (s : Sums) (i : Nat)
    (att : PerformanceAttestation)
    (hlook : (alGet st.attesterIndex (c, i)).bind
      (fun a => alGet st.attestations (c, a)) = some att)
    (h1 : s.sum_impressions + att.impressions_verified < 2 ^ 64)
    (h2 : s.sum_clicks + att.clicks_verified < 2 ^ 64)
    (h3 : s.sum_fraud_rate + att.fraud_rate < 2 ^ 64)
    (h4 : s.sum_quality_score + att.quality_score < 2 ^ 64) :
    readAndAdd st c s i = .ok ⟨s.sum_impressions + att.impressions_verified,
      s.sum_clicks + att.clicks_verified, s.sum_fraud_rate + att.fraud_rate,
      s.sum_quality_score + att.quality_score⟩ := by
  obtain ⟨a, ha, hb⟩ := Option.bind_eq_some.mp hlook
  simp [readAndAdd, ha, hb, checkedAdd64_ok _ _ h1, checkedAdd64_ok _ _ h2,
    checkedAdd64_ok _ _ h3, checkedAdd64_ok _ _ h4, Bind.bind, Except.bind]

theorem attSums_append_singleton (as : List PerformanceAttestation)
    (a : PerformanceAttestation) :
    attSums (as ++ [a]) = ⟨(attSums as).sum_impressions + a.impressions_verified,
      (attSums as).sum_clicks + a.clicks_verified,
      (attSums as).sum_fraud_rate + a.fraud_rate,
      (attSums as).sum_quality_score + a.quality_score⟩ := by
  simp [attSums]

theorem foldlM_readAndAdd_ok (st : Storage) (c : Nat)
    (atts : List PerformanceAttestation) :
    ∀ (s0 : Sums),
    indexedAttestations st c atts.length = atts.map some →
    s0.sum_impressions + (attSums atts).sum_impressions < 2 ^ 64 →
    s0.sum_clicks + (attSums atts).sum_clicks < 2 ^ 64 →
    s0.sum_fraud_rate + (attSums atts).sum_fraud_rate < 2 ^ 64 →
    s0.sum_quality_score + (attSums atts).sum_quality_score < 2 ^ 64 →
    (List.range atts.length).foldlM (readAndAdd st c) s0 =
      .ok ⟨s0.sum_impressions + (attSums atts).sum_impressions,
        s0.sum_clicks + (attSums atts).sum_clicks,
        s0.sum_fraud_rate + (attSums atts).sum_fraud_rate,
        s0.sum_quality_score + (attSums atts).sum_quality_score⟩ := by
  induction atts using List.reverseRecOn with
  | nil =>
    intro s0 _ _ _ _ _
    show pure s0 = _
    simp [attSums, pure, Except.pure]
  | append_singleton as a ih =>
    intro s0 hatts h1 h2 h3 h4
    have hlen : (as ++ [a]).length = as.length + 1 := by simp
    rw [hlen] at hatts ⊢
    rw [indexedAttestations_succ] at hatts
    have hmap : (as ++ [a]).map some = as.map some ++ [some a] := by simp
    rw [hmap] at hatts
    have hsplit := List.append_inj hatts
      (by rw [indexedAttestations_length]; simp)
    obtain ⟨hpre, hlast⟩ := hsplit
    have hlast' : (alGet st.attesterIndex (c, as.length)).bind
        (fun x => alGet st.attestations (c, x)) = some a := by
      simpa using hlast
    simp only [attSums_append_singleton] at h1 h2 h3 h4 ⊢
    have hpre1 : s0.sum_impressions + (attSums as).sum_impressions < 2 ^ 64 := by
      omega
    have hpre2 : s0.sum_clicks + (attSums as).sum_clicks < 2 ^ 64 := by omega
    have hpre3 : s0.sum_fraud_rate + (attSums as).sum_fraud_rate < 2 ^ 64 := by
      omega
    have hpre4 : s0.sum_quality_score + (attSums as).sum_quality_score < 2 ^ 64 := by
      omega
    rw [List.range_succ, List.foldlM_append, ih s0 hpre hpre1 hpre2 hpre3 hpre4]
    have ha1 : s0.sum_impressions + (attSums as).sum_impressions +
        a.impressions_verified < 2 ^ 64 := by omega
    have ha2 : s0.sum_clicks + (attSums as).sum_clicks +
        a.clicks_verified < 2 ^ 64 := by omega
    have ha3 : s0.sum_fraud_rate + (attSums as).sum_fraud_rate +
        a.fraud_rate < 2 ^ 64 := by omega
    have ha4 : s0.sum_quality_score + (attSums as).sum_quality_score +
        a.quality_score < 2 ^ 64 := by omega
    have hstep := readAndAdd_ok st c
      ⟨s0.sum_impressions + (attSums as).sum_impressions,
        s0.sum_clicks + (attSums as).sum_clicks,
        s0.sum_fraud_rate + (attSums as).sum_fraud_rate,
        s0.sum_quality_score + (attSums as).sum_quality_score⟩
      as.length a hlast' ha1 ha2 ha3 ha4
    simp only [List.foldlM_cons, List.foldlM_nil, Bind.bind, Except.bind]
    rw [hstep]
    simp only
    congr 1
    congr 1 <;> omega

/-! ## Characterization of the consensus builder -/

theorem tryBuildConsensus_lt_min (st : Storage) (c n now : Nat)
    (h : n < minOf st) : tryBuildConsensus st c n now = .ok st := by
  have h' : n < st.min_attesters_cfg.getD 3 := h
  simp [tryBuildConsensus, if_pos h']

theorem tryBuildConsensus_ok_spec (st : Storage) (c n now : Nat)
    (atts : List PerformanceAttestation)
    (hatts : indexedAttestations st c n = atts.map some)
    (hmin : minOf st ≤ n) (hn : 1 ≤ n)
    (h1 : (attSums atts).sum_impressions < 2 ^ 64)
    (h2 : (attSums atts).sum_clicks < 2 ^ 64)
    (h3 : (attSums atts).sum_fraud_rate < 2 ^ 64)
    (h4 : (attSums atts).sum_quality_score < 2 ^ 64) :
    tryBuildConsensus st c n now =
      .ok (writeConsensus st c (builtConsensus c n now atts)) := by
  have hlen : atts.length = n := by
    have hl := congrArg List.length hatts
    simp [indexedAttestations_length] at hl
    omega
  subst hlen
  have hmin' : ¬ (atts.length < st.min_attesters_cfg.getD 3) := by
    have : st.min_attesters_cfg.getD 3 ≤ atts.length := hmin
    omega
  have hfold := foldlM_readAndAdd_ok st c atts ⟨0, 0, 0, 0⟩ hatts
    (by simpa using h1) (by simpa using h2) (by simpa using h3)
    (by simpa using h4)
  simp only [tryBuildConsensus, if_neg hmin']
  rw [hfold]
  have hz : ¬ (atts.length = 0) := by omega
  simp [Bind.bind, Except.bind, hz, writeConsensus, builtConsensus]

theorem readAndAdd_ok_inv (st : Storage) (c : Nat) (s : Sums) (i : Nat)
    (s' : Sums) (h : readAndAdd st c s i = .ok s') :
    ∃ att, (alGet st.attesterIndex (c, i)).bind
        (fun a => alGet st.attestations (c, a)) = some att ∧
      s' = ⟨s.sum_impressions + att.impressions_verified,
        s.sum_clicks + att.clicks_verified, s.sum_fraud_rate + att.fraud_rate,
        s.sum_quality_score + att.quality_score⟩ ∧
      s'.sum_impressions < 2 ^ 64 ∧ s'.sum_clicks < 2 ^ 64 ∧
      s'.sum_fraud_rate < 2 ^ 64 ∧ s'.sum_quality_score < 2 ^ 64 := by
  unfold readAndAdd at h
  split at h
  next => exact absurd h (by simp)
  next a hidx =>
    split at h
    next => exact absurd h (by simp)
    next att hatt =>
      refine ⟨att, by simp [hidx, hatt], ?_⟩
      by_cases hc1 : s.sum_impressions + att.impressions_verified < 2 ^ 64
      · by_cases hc2 : s.sum_clicks + att.clicks_verified < 2 ^ 64
        · by_cases hc3 : s.sum_fraud_rate + att.fraud_rate < 2 ^ 64
          · by_cases hc4 : s.sum_quality_score + att.quality_score < 2 ^ 64
            · simp only [checkedAdd64, if_pos hc1, if_pos hc2, if_pos hc3,
                if_pos hc4, Bind.bind, Except.bind, Except.ok.injEq] at h
              subst h
              exact ⟨rfl, hc1, hc2, hc3, hc4⟩
            · simp only [checkedAdd64, if_pos hc1, if_pos hc2, if_pos hc3,
                if_neg hc4, Bind.bind, Except.bind] at h
              exact Except.noConfusion h
          · simp only [checkedAdd64, if_pos hc1, if_pos hc2, if_neg hc3,
              Bind.bind, Except.bind] at h
            exact Except.noConfusion h
        · simp only [checkedAdd64, if_pos hc1, if_neg hc2, Bind.bind,
            Except.bind] at h
          exact Except.noConfusion h
      · simp only [checkedAdd64, if_neg hc1, Bind.bind, Except.bind] at h
        exact Except.noConfusion h

theorem foldlM_readAndAdd_ok_inv (st : Storage) (c : Nat) :
    ∀ (n : Nat) (s0 s : Sums),
    (List.range n).foldlM (readAndAdd st c) s0 = .ok s →
    ∃ atts : List PerformanceAttestation,
      indexedAttestations st c n = atts.map some ∧
      s = ⟨s0.sum_impressions + (attSums atts).sum_impressions,
        s0.sum_clicks + (attSums atts).sum_clicks,
        s0.sum_fraud_rate + (attSums atts).sum_fraud_rate,
        s0.sum_quality_score + (attSums atts).sum_quality_score⟩ ∧
      (1 ≤ n → s.sum_impressions < 2 ^ 64 ∧ s.sum_clicks < 2 ^ 64 ∧
        s.sum_fraud_rate < 2 ^ 64 ∧ s.sum_quality_score < 2 ^ 64) := by
  intro n
  induction n with
  | zero =>
    intro s0 s h
    have hs : s = s0 := by
      simpa [pure, Except.pure] using h.symm
    subst hs
    exact ⟨[], by simp [indexedAttestations], by simp [attSums], by omega⟩
  | succ n ih =>
    intro s0 s h
    rw [List.range_succ, List.foldlM_append] at h
    obtain ⟨s', hs', hstep⟩ := (exceptBind_ok _ _ _).mp h
    have hstep' : readAndAdd st c s' n = .ok s := by
      have hb : (List.foldlM (readAndAdd st c) s' [n]) =
          readAndAdd st c s' n >>= pure := by
        simp [List.foldlM_cons, List.foldlM_nil]
      rw [hb, bind_pure] at hstep
      exact hstep
    obtain ⟨atts', hatts', hs'eq, _⟩ := ih s0 s' hs'
    obtain ⟨att, hlook, hseq, hb1, hb2, hb3, hb4⟩ :=
      readAndAdd_ok_inv st c s' n s hstep'
    refine ⟨atts' ++ [att], ?_, ?_, fun _ => ⟨hb1, hb2, hb3, hb4⟩⟩
    · rw [indexedAttestations_succ, hatts', hlook]
      simp
    · rw [hseq, hs'eq, attSums_append_singleton]
      simp only
      congr 1 <;> omega

theorem readAndAdd_ok_or_overflow (st : Storage) (c : Nat) (s : Sums) (i : Nat)
    (hlook : ((alGet st.attesterIndex (c, i)).bind
      (fun a => alGet st.attestations (c, a))).isSome) :
    (∃ s', readAndAdd st c s i = .ok s') ∨
      readAndAdd st c s i = .error .Overflow := by
  obtain ⟨att, hlook'⟩ := Option.isSome_iff_exists.mp hlook
  obtain ⟨a, ha, hb⟩ := Option.bind_eq_some.mp hlook'
  simp only [readAndAdd, ha, hb]
  by_cases hc1 : s.sum_impressions + att.impressions_verified < 2 ^ 64
  · by_cases hc2 : s.sum_clicks + att.clicks_verified < 2 ^ 64
    · by_cases hc3 : s.sum_fraud_rate + att.fraud_rate < 2 ^ 64
      · by_cases hc4 : s.sum_quality_score + att.quality_score < 2 ^ 64
        · exact Or.inl ⟨⟨s.sum_impressions + att.impressions_verified,
            s.sum_clicks + att.clicks_verified,
            s.sum_fraud_rate + att.fraud_rate,
            s.sum_quality_score + att.quality_score⟩,
            by simp only [checkedAdd64, if_pos hc1, if_pos hc2, if_pos hc3,
              if_pos hc4, Bind.bind, Except.bind]⟩
        · exact Or.inr (by simp only [checkedAdd64, if_pos hc1, if_pos hc2,
            if_pos hc3, if_neg hc4, Bind.bind, Except.bind])
      · exact Or.inr (by simp only [checkedAdd64, if_pos hc1, if_pos hc2,
          if_neg hc3, Bind.bind, Except.bind])
    · exact Or.inr (by simp only [checkedAdd64, if_pos hc1, if_neg hc2,
        Bind.bind, Except.bind])
  · exact Or.inr (by simp only [checkedAdd64, if_neg hc1, Bind.bind,
      Except.bind])

theorem foldlM_readAndAdd_ok_or_overflow (st : Storage) (c : Nat) :
    ∀ (n : Nat) (s0 : Sums),
    (∀ i, i < n → ((alGet st.attesterIndex (c, i)).bind
      (fun a => alGet st.attestations (c, a))).isSome) →
    (∃ s, (List.range n).foldlM (readAndAdd st c) s0 = .ok s) ∨
      (List.range n).foldlM (readAndAdd st c) s0 = .error .Overflow := by
  intro n
  induction n with
  | zero => intro s0 _; exact Or.inl ⟨s0, rfl⟩
  | succ n ih =>
    intro s0 hlook
    rw [List.range_succ, List.foldlM_append]
    rcases ih s0 (fun i hi => hlook i (by omega)) with ⟨s, hs⟩ | hs
    · rw [hs]
      have hone : ∀ s1 : Sums, List.foldlM (readAndAdd st c) s1 [n] =
          readAndAdd st c s1 n := by
        intro s1
        simp [List.foldlM_cons, List.foldlM_nil]
      rcases readAndAdd_ok_or_overflow st c s n (hlook n (by omega)) with
        ⟨s', hs'⟩ | hs'
      · exact Or.inl ⟨s', by simp [Bind.bind, Except.bind, hone, hs']⟩
      · exact Or.inr (by simp [Bind.bind, Except.bind, hone, hs'])
    · rw [hs]
      exact Or.inr rfl

theorem tryBuildConsensus_ok_inv (st : Storage) (c n now : Nat) (st' : Storage)
    (hmin : minOf st ≤ n) (h : tryBuildConsensus st c n now = .ok st') :
    1 ≤ n ∧ ∃ atts : List PerformanceAttestation,
      indexedAttestations st c n = atts.map some ∧
      st' = writeConsensus st c (builtConsensus c n now atts) := by
  have hmin' : ¬ (n < st.min_attesters_cfg.getD 3) := by
    have hle : st.min_attesters_cfg.getD 3 ≤ n := hmin
    omega
  simp only [tryBuildConsensus, if_neg hmin'] at h
  obtain ⟨s, hfold, hrest⟩ := (exceptBind_ok _ _ _).mp h
  obtain ⟨atts, hatts, hseq, _⟩ := foldlM_readAndAdd_ok_inv st c n ⟨0, 0, 0, 0⟩
    s hfold
  by_cases hz : n = 0
  · rw [if_pos hz] at hrest
    exact absurd hrest (by simp)
  · rw [if_neg hz] at hrest
    simp only [Except.ok.injEq] at hrest
    refine ⟨by omega, atts, hatts, ?_⟩
    rw [← hrest, hseq]
    simp [writeConsensus, builtConsensus]

theorem tryBuildConsensus_consensus_unchanged_of_lt (st : Storage)
    (c n now : Nat) (st' : Storage) (hlt : n < minOf st)
    (h : tryBuildConsensus st c n now = .ok st') : st' = st := by
  rw [tryBuildConsensus_lt_min st c n now hlt] at h
  exact (Except.ok.inj h).symm

/-! ## Characterization of submit_attestation -/

theorem submit_attestation_eq (st : Storage) (a : Address)
    (c imp cl fr qs now : Nat) (hauth : a ∈ st.authorized)
    (hvalid : validMeasurement imp cl fr qs = true) :
    submit_attestation st a c imp cl fr qs now =
      tryBuildConsensus (submitWrites st a c imp cl fr qs now) c
        (newCountAfter st a c) now := by
  have h1 : ¬ ¬ (a ∈ st.authorized) := not_not_intro hauth
  have h2 : ¬ ¬ (validMeasurement imp cl fr qs = true) := not_not_intro hvalid
  simp only [submit_attestation, hvalid, if_neg h1, if_neg (by simp : ¬ ¬ True)]
  rfl

theorem submit_ok_inv (st : Storage) (a : Address) (c imp cl fr qs now : Nat)
    (st' : Storage)
    (hok : submit_attestation st a c imp cl fr qs now = .ok st') :
    a ∈ st.authorized ∧ validMeasurement imp cl fr qs = true ∧
      tryBuildConsensus (submitWrites st a c imp cl fr qs now) c
        (newCountAfter st a c) now = .ok st' := by
  by_cases hauth : a ∈ st.authorized
  · by_cases hvalid : validMeasurement imp cl fr qs = true
    · exact ⟨hauth, hvalid, by
        rw [← submit_attestation_eq st a c imp cl fr qs now hauth hvalid]
        exact hok⟩
    · rw [submit_attestation, if_neg (not_not_intro hauth),
        if_pos hvalid] at hok
      exact Except.noConfusion hok
  · rw [submit_attestation, if_pos hauth] at hok
    exact Except.noConfusion hok

theorem tryBuildConsensus_ok_frame (st : Storage) (c n now : Nat)
    (st' : Storage) (h : tryBuildConsensus st c n now = .ok st') :
    st'.authorized = st.authorized ∧
    st'.min_attesters_cfg = st.min_attesters_cfg ∧
    st'.attestations = st.attestations ∧
    st'.attesterIndex = st.attesterIndex ∧
    st'.attestationCount = st.attestationCount := by
  by_cases hlt : n < minOf st
  · have he := tryBuildConsensus_consensus_unchanged_of_lt st c n now st' hlt h
    subst he
    exact ⟨rfl, rfl, rfl, rfl, rfl⟩
  · obtain ⟨_, atts, _, hw⟩ := tryBuildConsensus_ok_inv st c n now st'
      (by omega) h
    subst hw
    exact ⟨rfl, rfl, rfl, rfl, rfl⟩

theorem tryBuildConsensus_ok_consensus_cases (st : Storage) (c n now : Nat)
    (st' : Storage) (h : tryBuildConsensus st c n now = .ok st') :
    (n < minOf st ∧ st' = st) ∨
    (minOf st ≤ n ∧ 1 ≤ n ∧ ∃ atts : List PerformanceAttestation,
      indexedAttestations st c n = atts.map some ∧
      st' = writeConsensus st c (builtConsensus c n now atts)) := by
  by_cases hlt : n < minOf st
  · exact Or.inl ⟨hlt,
      tryBuildConsensus_consensus_unchanged_of_lt st c n now st' hlt h⟩
  · obtain ⟨hn, atts, hatts, hw⟩ := tryBuildConsensus_ok_inv st c n now st'
      (by omega) h
    exact Or.inr ⟨by omega, hn, atts, hatts, hw⟩

/-! ## Claim C9: the concrete two- and three-attester scenarios -/

/-- C9: with `min_attesters = 2`, after attester 1 submits
(1000, 100, 1000, 80) and attester 2 submits (2000, 200, 2000, 90) for
campaign 7, `get_consensus` returns exactly (1500, 150, 1500, 85) with
`total_attesters = 2` and `consensus_reached = true`; after attester 3 then
submits (9000, 900, 9000, 10), it returns exactly (4000, 400, 4000, 60) with
`total_attesters = 3`. -/
theorem C9_concrete_scenarios :
    Except.map (fun st => get_consensus st 7)
      (runSubmits (initStorage [1, 2, 3] (some 2)) 7 100
        [⟨1, 1000, 100, 1000, 80⟩, ⟨2, 2000, 200, 2000, 90⟩]) =
      .ok (some ⟨7, 2, 1500, 150, 1500, 85, true, 100⟩) ∧
    Except.map (fun st => get_consensus st 7)
      (runSubmits (initStorage [1, 2, 3] (some 2)) 7 100
        [⟨1, 1000, 100, 1000, 80⟩, ⟨2, 2000, 200, 2000, 90⟩,
          ⟨3, 9000, 900, 9000, 10⟩]) =
      .ok (some ⟨7, 3, 4000, 400, 4000, 60, true, 100⟩) := by
  exact ⟨rfl, rfl⟩

/-! ## Claim C7: failed submissions are all-or-nothing -/

/-- C7: a `submit` by an unauthorized attester fails with `Unauthorized`, and
a `submit` with a measurement outside its declared bounds fails with
`InvalidMeasurement`; in both cases the transaction leaves the entire storage
(attestations, index, count, and any prior consensus record) unchanged, and
the caller sees the typed failure, not a success. -/
theorem C7_failed_submit_all_or_nothing (st : Storage) (a : Address)
    (c imp cl fr qs now : Nat) :
    (a ∉ st.authorized →
      submit_attestation st a c imp cl fr qs now = .error .Unauthorized ∧
      submitTx st a c imp cl fr qs now = st) ∧
    (a ∈ st.authorized → validMeasurement imp cl fr qs = false →
      submit_attestation st a c imp cl fr qs now = .error .InvalidMeasurement ∧
      submitTx st a c imp cl fr qs now = st) := by
  constructor
  · intro h
    have he : submit_attestation st a c imp cl fr qs now =
        .error .Unauthorized := by
      rw [submit_attestation, if_pos h]
    exact ⟨he, by simp [submitTx, he]⟩
  · intro ha hv
    have hv' : ¬ (validMeasurement imp cl fr qs = true) := by simp [hv]
    have he : submit_attestation st a c imp cl fr qs now =
        .error .InvalidMeasurement := by
      rw [submit_attestation, if_neg (not_not_intro ha), if_pos hv']
    exact ⟨he, by simp [submitTx, he]⟩

/-- Witness for C7 at concrete inputs: attester 9 is not authorized; attester
5 is authorized but submits a fraud rate of 20000 basis points. -/
theorem C7_witness :
    (submit_attestation (initStorage [5] none) 9 1 10 10 10 10 100 =
        .error .Unauthorized ∧
      submitTx (initStorage [5] none) 9 1 10 10 10 10 100 =
        initStorage [5] none) ∧
    (submit_attestation (initStorage [5] none) 5 1 10 10 20000 10 100 =
        .error .InvalidMeasurement ∧
      submitTx (initStorage [5] none) 5 1 10 10 20000 10 100 =
        initStorage [5] none) :=
  ⟨(C7_failed_submit_all_or_nothing (initStorage [5] none) 9 1 10 10 10 10
      100).1 (by decide),
    (C7_failed_submit_all_or_nothing (initStorage [5] none) 5 1 10 10 20000 10
      100).2 (by decide) (by decide)⟩

/-! ## Claim C10: the consensus computation cannot panic under the invariant -/

theorem lookups_isSome_of_indexed (st : Storage) (c n : Nat)
    (atts : List PerformanceAttestation)
    (hatts : indexedAttestations st c n = atts.map some) :
    ∀ i, i < n → ((alGet st.attesterIndex (c, i)).bind
      (fun x => alGet st.attestations (c, x))).isSome := by
  intro i hi
  have h1 : (indexedAttestations st c n)[i]? =
      some ((alGet st.attesterIndex (c, i)).bind
        (fun x => alGet st.attestations (c, x))) := by
    simp [indexedAttestations, List.getElem?_range, hi]
  rw [hatts] at h1
  rw [List.getElem?_map] at h1
  cases hx : atts[i]? with
  | none => rw [hx] at h1; exact Option.noConfusion h1
  | some att =>
    rw [hx] at h1
    simp only [Option.map_some', Option.some.injEq] at h1
    rw [← h1]
    rfl

/-- C10: whenever the consensus computation runs with `total_attesters ≥ 1`
and the index invariant holds (each position `0..n-1` resolves to an attester
whose attestation is stored), the two `expect` panic branches and the
division by zero are unreachable: the computation never fails with
`IndexNotFound`, `AttestationNotFound` or `DivideByZero` — for every
configured `min_attesters`, including 0 and 1. -/
theorem C10_no_lookup_panic_no_div_zero (st : Storage) (c n now : Nat)
    (hn : 1 ≤ n)
    (hlook : ∀ i, i < n → ((alGet st.attesterIndex (c, i)).bind
      (fun x => alGet st.attestations (c, x))).isSome) :
    tryBuildConsensus st c n now ≠ .error .IndexNotFound ∧
    tryBuildConsensus st c n now ≠ .error .AttestationNotFound ∧
    tryBuildConsensus st c n now ≠ .error .DivideByZero := by
  by_cases hlt : n < minOf st
  · rw [tryBuildConsensus_lt_min st c n now hlt]
    exact ⟨by simp, by simp, by simp⟩
  · have hmin' : ¬ (n < st.min_attesters_cfg.getD 3) := hlt
    have hz : ¬ (n = 0) := by omega
    rcases foldlM_readAndAdd_ok_or_overflow st c n ⟨0, 0, 0, 0⟩ hlook with
      ⟨s, hs⟩ | hs
    · simp only [tryBuildConsensus, if_neg hmin']
      rw [hs]
      simp [Bind.bind, Except.bind, hz]
    · simp only [tryBuildConsensus, if_neg hmin']
      rw [hs]
      simp [Bind.bind, Except.bind]

/-- Witness for C10: a single stored attestation at position 0,
`min_attesters = 1`, `n = 1`. -/
theorem C10_witness :
    (1 : Nat) ≤ 1 ∧
    tryBuildConsensus
      ⟨[1], some 1, [((7, 1), ⟨7, 1, 10, 2, 30, 4, 50⟩)], [((7, 0), 1)],
        [(7, 1)], []⟩ 7 1 100 ≠ .error .IndexNotFound :=
  ⟨le_refl 1,
    (C10_no_lookup_panic_no_div_zero
      ⟨[1], some 1, [((7, 1), ⟨7, 1, 10, 2, 30, 4, 50⟩)], [((7, 0), 1)],
        [(7, 1)], []⟩ 7 1 100 (le_refl 1) (by decide)).1⟩

/-! ## Claim C1: stored averages are truncated means over all attestations -/

/-- C1: whenever the consensus builder computes (quorum met) and succeeds,
the record it stores for the campaign has each of the four `avg_*` fields
equal to the integer-truncated quotient `sum / n` of the field sums over all
`n = total_attesters` indexed attestations — not a subset and not only the
most recent submission.  The `u32` range hypotheses on the stored
`fraud_rate` / `quality_score` values and `n ≤ 2^32` reflect the Rust field
types and make the `as u32` cast on those two averages lossless. -/
theorem C1_consensus_is_truncated_mean (st : Storage) (c n now : Nat)
    (atts : List PerformanceAttestation)
    (hatts : indexedAttestations st c n = atts.map some)
    (hmin : minOf st ≤ n) (hn : 1 ≤ n) (hn32 : n ≤ 2 ^ 32)
    (h1 : (attSums atts).sum_impressions < 2 ^ 64)
    (h2 : (attSums atts).sum_clicks < 2 ^ 64)
    (hfr : ∀ x ∈ atts, x.fraud_rate < 2 ^ 32)
    (hqs : ∀ x ∈ atts, x.quality_score < 2 ^ 32) :
    tryBuildConsensus st c n now = .ok (writeConsensus st c
      ⟨c, n, (attSums atts).sum_impressions / n, (attSums atts).sum_clicks / n,
        (attSums atts).sum_fraud_rate / n,
        (attSums atts).sum_quality_score / n, true, now⟩) ∧
    (∀ st', tryBuildConsensus st c n now = .ok st' →
      get_consensus st' c = some ⟨c, n, (attSums atts).sum_impressions / n,
        (attSums atts).sum_clicks / n, (attSums atts).sum_fraud_rate / n,
        (attSums atts).sum_quality_score / n, true, now⟩) := by
  have hlen : atts.length = n := by
    have hl := congrArg List.length hatts
    simp [indexedAttestations_length] at hl
    omega
  have hfb : (attSums atts).sum_fraud_rate ≤ n * (2 ^ 32 - 1) := by
    have hb := List.sum_le_card_nsmul (atts.map (·.fraud_rate)) (2 ^ 32 - 1)
      (by
        intro x hx
        obtain ⟨y, hy, he⟩ := List.mem_map.mp hx
        have := hfr y hy
        omega)
    simpa [attSums, hlen, smul_eq_mul] using hb
  have hqb : (attSums atts).sum_quality_score ≤ n * (2 ^ 32 - 1) := by
    have hb := List.sum_le_card_nsmul (atts.map (·.quality_score)) (2 ^ 32 - 1)
      (by
        intro x hx
        obtain ⟨y, hy, he⟩ := List.mem_map.mp hx
        have := hqs y hy
        omega)
    simpa [attSums, hlen, smul_eq_mul] using hb
  have h3 : (attSums atts).sum_fraud_rate < 2 ^ 64 := by omega
  have h4 : (attSums atts).sum_quality_score < 2 ^ 64 := by omega
  have hfavg : (attSums atts).sum_fraud_rate / n < 2 ^ 32 := by
    rw [Nat.div_lt_iff_lt_mul (by omega : 0 < n)]
    omega
  have hqavg : (attSums atts).sum_quality_score / n < 2 ^ 32 := by
    rw [Nat.div_lt_iff_lt_mul (by omega : 0 < n)]
    omega
  have hrec : builtConsensus c n now atts =
      ⟨c, n, (attSums atts).sum_impressions / n,
        (attSums atts).sum_clicks / n, (attSums atts).sum_fraud_rate / n,
        (attSums atts).sum_quality_score / n, true, now⟩ := by
    simp [builtConsensus, Nat.mod_eq_of_lt hfavg, Nat.mod_eq_of_lt hqavg]
    constructor <;> omega
  have hmain := tryBuildConsensus_ok_spec st c n now atts hatts hmin hn
    h1 h2 h3 h4
  rw [hrec] at hmain
  refine ⟨hmain, ?_⟩
  intro st' hst'
  rw [hmain] at hst'
  have he := Except.ok.inj hst'
  rw [← he]
  simp [get_consensus, writeConsensus, alGet_alSet_self]

/-- Witness for C1: one stored attestation (10, 2, 30, 4) at position 0,
`min_attesters = 1`, `n = 1`. -/
theorem C1_witness :
    minOf ⟨[1], some 1, [((7, 1), ⟨7, 1, 10, 2, 30, 4, 50⟩)], [((7, 0), 1)],
        [(7, 1)], []⟩ ≤ 1 ∧
    tryBuildConsensus ⟨[1], some 1, [((7, 1), ⟨7, 1, 10, 2, 30, 4, 50⟩)],
        [((7, 0), 1)], [(7, 1)], []⟩ 7 1 100 =
      .ok (writeConsensus ⟨[1], some 1, [((7, 1), ⟨7, 1, 10, 2, 30, 4, 50⟩)],
        [((7, 0), 1)], [(7, 1)], []⟩ 7 ⟨7, 1, 10, 2, 30, 4, true, 100⟩) :=
  ⟨by decide,
    (C1_consensus_is_truncated_mean
      ⟨[1], some 1, [((7, 1), ⟨7, 1, 10, 2, 30, 4, 50⟩)], [((7, 0), 1)],
        [(7, 1)], []⟩ 7 1 100 [⟨7, 1, 10, 2, 30, 4, 50⟩]
      (by decide) (by decide) (by decide) (by decide) (by decide) (by decide)
      (by decide) (by decide)).1⟩

/-! ## Claim C6: accumulator overflow aborts without writing -/

/-- C6: if summing the attestation fields would exceed the 64-bit accumulator
width, the consensus computation aborts with `Overflow` and — by the
transaction revert semantics — writes nothing: the previously stored
consensus record (the whole storage, in fact) is left unchanged. -/
theorem C6_overflow_aborts (st : Storage) (c n now : Nat)
    (atts : List PerformanceAttestation)
    (hatts : indexedAttestations st c n = atts.map some)
    (hmin : minOf st ≤ n)
    (hov : 2 ^ 64 ≤ (attSums atts).sum_impressions ∨
      2 ^ 64 ≤ (attSums atts).sum_clicks ∨
      2 ^ 64 ≤ (attSums atts).sum_fraud_rate ∨
      2 ^ 64 ≤ (attSums atts).sum_quality_score) :
    tryBuildConsensus st c n now = .error .Overflow ∧
    tryBuildTx st c n now = st ∧
    get_consensus (tryBuildTx st c n now) c = get_consensus st c := by
  have hlen : atts.length = n := by
    have hl := congrArg List.length hatts
    simp [indexedAttestations_length] at hl
    omega
  have hn : 1 ≤ n := by
    by_contra hc
    have hz : atts.length = 0 := by omega
    have he : atts = [] := List.length_eq_zero.mp hz
    subst he
    simp [attSums] at hov
  have hlook := lookups_isSome_of_indexed st c n atts hatts
  have hmle : st.min_attesters_cfg.getD 3 ≤ n := hmin
  have hmin' : ¬ (n < st.min_attesters_cfg.getD 3) := by omega
  rcases foldlM_readAndAdd_ok_or_overflow st c n ⟨0, 0, 0, 0⟩ hlook with
    ⟨s, hs⟩ | hs
  · exfalso
    obtain ⟨atts', hatts', hseq, hbnd⟩ :=
      foldlM_readAndAdd_ok_inv st c n ⟨0, 0, 0, 0⟩ s hs
    have heq : atts' = atts :=
      List.map_injective_iff.mpr (Option.some_injective _)
        (hatts'.symm.trans hatts)
    subst heq
    obtain ⟨b1, b2, b3, b4⟩ := hbnd hn
    simp only [hseq] at b1 b2 b3 b4
    rcases hov with h | h | h | h <;> omega
  · have hres : tryBuildConsensus st c n now = .error .Overflow := by
      simp only [tryBuildConsensus, if_neg hmin']
      rw [hs]
      simp [Bind.bind, Except.bind]
    exact ⟨hres, by simp [tryBuildTx, hres], by simp [tryBuildTx, hres]⟩

/-- Witness for C6: two stored attestations with `impressions_verified =
2^63` each, `min_attesters = 2`, `n = 2`: the impressions sum reaches
`2^64` and the computation aborts, leaving storage untouched. -/
theorem C6_witness :
    minOf ⟨[1, 2], some 2, [((7, 1), ⟨7, 1, 2 ^ 63, 0, 0, 0, 50⟩),
        ((7, 2), ⟨7, 2, 2 ^ 63, 0, 0, 0, 50⟩)], [((7, 0), 1), ((7, 1), 2)],
        [(7, 2)], []⟩ ≤ 2 ∧
    tryBuildConsensus ⟨[1, 2], some 2, [((7, 1), ⟨7, 1, 2 ^ 63, 0, 0, 0, 50⟩),
        ((7, 2), ⟨7, 2, 2 ^ 63, 0, 0, 0, 50⟩)], [((7, 0), 1), ((7, 1), 2)],
        [(7, 2)], []⟩ 7 2 100 = .error .Overflow :=
  ⟨by decide,
    (C6_overflow_aborts ⟨[1, 2], some 2,
      [((7, 1), ⟨7, 1, 2 ^ 63, 0, 0, 0, 50⟩),
        ((7, 2), ⟨7, 2, 2 ^ 63, 0, 0, 0, 50⟩)], [((7, 0), 1), ((7, 1), 2)],
      [(7, 2)], []⟩ 7 2 100
      [⟨7, 1, 2 ^ 63, 0, 0, 0, 50⟩, ⟨7, 2, 2 ^ 63, 0, 0, 0, 50⟩]
      (by decide) (by decide) (Or.inl (by decide))).1⟩

/-! ## Traces of first-time submissions -/

theorem sumImpr_append (l1 l2 : List SubmitOp) :
    sumImpr (l1 ++ l2) = sumImpr l1 + sumImpr l2 := by
  simp [sumImpr]

theorem sumClicks_append (l1 l2 : List SubmitOp) :
    sumClicks (l1 ++ l2) = sumClicks l1 + sumClicks l2 := by
  simp [sumClicks]

theorem sumFraud_append (l1 l2 : List SubmitOp) :
    sumFraud (l1 ++ l2) = sumFraud l1 + sumFraud l2 := by
  simp [sumFraud]

theorem sumQual_append (l1 l2 : List SubmitOp) :
    sumQual (l1 ++ l2) = sumQual l1 + sumQual l2 := by
  simp [sumQual]

theorem attSums_map_opAtt (c now : Nat) (ops : List SubmitOp) :
    attSums (ops.map (opAtt c now)) =
      ⟨sumImpr ops, sumClicks ops, sumFraud ops, sumQual ops⟩ := by
  simp [attSums, sumImpr, sumClicks, sumFraud, sumQual, List.map_map]
  exact ⟨rfl, rfl, rfl, rfl⟩

theorem indexedAttestations_of_view (st : Storage) (c now : Nat)
    (done : List SubmitOp) (hview : CampaignView st c now done) :
    indexedAttestations st c done.length =
      (done.map (opAtt c now)).map some := by
  apply List.ext_getElem?
  intro i
  by_cases hi : i < done.length
  · have hop : done[i]? = some done[i] := List.getElem?_eq_getElem hi
    have hidx := hview.2.1 i done[i] hop
    have hmem : done[i] ∈ done := List.getElem_mem hi
    have hatt := hview.2.2.1 done[i] hmem
    have hlhs : (indexedAttestations st c done.length)[i]? =
        some ((alGet st.attesterIndex (c, i)).bind
          (fun x => alGet st.attestations (c, x))) := by
      simp [indexedAttestations, List.getElem?_range, hi]
    rw [hlhs, hidx]
    simp only [Option.some_bind]
    rw [hatt]
    simp [List.getElem?_map, hop]
  · have h1 : (indexedAttestations st c done.length)[i]? = none := by
      rw [List.getElem?_eq_none]
      rw [indexedAttestations_length]
      omega
    have h2 : ((done.map (opAtt c now)).map some)[i]? = none := by
      rw [List.getElem?_eq_none]
      simp
      omega
    rw [h1, h2]

/-- A single fresh-attester `submit` from a state that holds exactly the
submissions `done` for campaign `c`: it succeeds, extends the campaign view by
`op`, and rewrites the consensus record exactly when the new count meets the
quorum floor, with the record averaging all stored attestations. -/
theorem submit_step_fresh (st : Storage) (c now : Nat) (done : List SubmitOp)
    (op : SubmitOp) (hview : CampaignView st c now done)
    (hauth : op.attester ∈ st.authorized)
    (hvalid : validMeasurement op.impressions op.clicks op.fraud_rate
      op.quality_score = true)
    (hfresh : ∀ p ∈ done, p.attester ≠ op.attester)
    (hs1 : sumImpr (done ++ [op]) < 2 ^ 64)
    (hs2 : sumClicks (done ++ [op]) < 2 ^ 64)
    (hs3 : sumFraud (done ++ [op]) < 2 ^ 64)
    (hs4 : sumQual (done ++ [op]) < 2 ^ 64) :
    ∃ st', submit_attestation st op.attester c op.impressions op.clicks
        op.fraud_rate op.quality_score now = .ok st' ∧
      CampaignView st' c now (done ++ [op]) ∧
      st'.authorized = st.authorized ∧
      st'.min_attesters_cfg = st.min_attesters_cfg ∧
      st'.consensus = (if done.length + 1 < minOf st then st.consensus
        else alSet st.consensus c (consensusOf c (done ++ [op]) now)) := by
  have hcount : (alGet st.attestationCount c).getD 0 = done.length := hview.1
  have hnew : alGet st.attestations (c, op.attester) = none :=
    hview.2.2.2 op.attester (fun p hp => hfresh p hp)
  have hnca : newCountAfter st op.attester c = done.length + 1 := by
    simp [newCountAfter, hnew, hcount]
  have hW : submitWrites st op.attester c op.impressions op.clicks
      op.fraud_rate op.quality_score now =
      { st with
        attesterIndex := alSet st.attesterIndex (c, done.length) op.attester
        attestations := alSet st.attestations (c, op.attester)
          (opAtt c now op)
        attestationCount := alSet st.attestationCount c
          (done.length + 1) } := by
    simp [submitWrites, hcount, hnca, opAtt]
  have hsub : submit_attestation st op.attester c op.impressions op.clicks
      op.fraud_rate op.quality_score now =
      tryBuildConsensus ({ st with
        attesterIndex := alSet st.attesterIndex (c, done.length) op.attester
        attestations := alSet st.attestations (c, op.attester)
          (opAtt c now op)
        attestationCount := alSet st.attestationCount c (done.length + 1) })
        c (done.length + 1) now := by
    rw [submit_attestation_eq st op.attester c op.impressions op.clicks
      op.fraud_rate op.quality_score now hauth hvalid, hnca, hW]
  have hviewW : CampaignView ({ st with
      attesterIndex := alSet st.attesterIndex (c, done.length) op.attester
      attestations := alSet st.attestations (c, op.attester) (opAtt c now op)
      attestationCount := alSet st.attestationCount c (done.length + 1) })
      c now (done ++ [op]) := by
    refine ⟨?_, ?_, ?_, ?_⟩
    · show (alGet (alSet st.attestationCount c (done.length + 1)) c).getD 0 = _
      rw [alGet_alSet_self]
      simp
    · intro i q hq
      by_cases hi : i < done.length
      · rw [List.getElem?_append] at hq
        rw [if_pos (by simpa using hi)] at hq
        show alGet (alSet st.attesterIndex (c, done.length) op.attester)
          (c, i) = some q.attester
        rw [alGet_alSet_ne _ _ _ _ (by simp; omega)]
        exact hview.2.1 i q hq
      · have hile : i ≤ done.length := by
          by_contra hgt
          have : (done ++ [op])[i]? = none := by
            rw [List.getElem?_eq_none]
            simp
            omega
          rw [this] at hq
          exact Option.noConfusion hq
        have hieq : i = done.length := by omega
        subst hieq
        rw [List.getElem?_concat_length] at hq
        have hqe : q = op := by
          exact (Option.some.inj hq).symm
        subst hqe
        show alGet (alSet st.attesterIndex (c, done.length) q.attester)
          (c, done.length) = some q.attester
        exact alGet_alSet_self _ _ _
    · intro q hq
      rcases List.mem_append.mp hq with hd | hop
      · show alGet (alSet st.attestations (c, op.attester) (opAtt c now op))
          (c, q.attester) = some (opAtt c now q)
        rw [alGet_alSet_ne _ _ _ _ (by simp [hfresh q hd])]
        exact hview.2.2.1 q hd
      · have hqe : q = op := by simpa using hop
        subst hqe
        show alGet (alSet st.attestations (c, q.attester) (opAtt c now q))
          (c, q.attester) = some (opAtt c now q)
        exact alGet_alSet_self _ _ _
    · intro b hb
      have hbop : op.attester ≠ b := hb op (by simp)
      show alGet (alSet st.attestations (c, op.attester) (opAtt c now op))
        (c, b) = none
      have hkey : ((c, b) : Nat × Address) ≠ (c, op.attester) := by
        intro he
        exact hbop (Eq.symm (congrArg Prod.snd he))
      rw [alGet_alSet_ne _ _ _ _ hkey]
      exact hview.2.2.2 b (fun p hp => hb p (List.mem_append_left _ hp))
  have hidxW := indexedAttestations_of_view _ c now (done ++ [op]) hviewW
  rw [(by simp : (done ++ [op]).length = done.length + 1)] at hidxW
  by_cases hlt : done.length + 1 < minOf st
  · have hltW : done.length + 1 < minOf ({ st with
        attesterIndex := alSet st.attesterIndex (c, done.length) op.attester
        attestations := alSet st.attestations (c, op.attester)
          (opAtt c now op)
        attestationCount := alSet st.attestationCount c
          (done.length + 1) }) := hlt
    refine ⟨_, by rw [hsub, tryBuildConsensus_lt_min _ _ _ _ hltW],
      hviewW, rfl, rfl, ?_⟩
    rw [if_pos hlt]
  · have hgeW : minOf ({ st with
        attesterIndex := alSet st.attesterIndex (c, done.length) op.attester
        attestations := alSet st.attestations (c, op.attester)
          (opAtt c now op)
        attestationCount := alSet st.attestationCount c
          (done.length + 1) }) ≤ done.length + 1 := by
      have h' : ¬ (done.length + 1 < st.min_attesters_cfg.getD 3) := hlt
      show st.min_attesters_cfg.getD 3 ≤ done.length + 1
      omega
    have hb1 : (attSums ((done ++ [op]).map (opAtt c now))).sum_impressions <
        2 ^ 64 := by rw [attSums_map_opAtt]; exact hs1
    have hb2 : (attSums ((done ++ [op]).map (opAtt c now))).sum_clicks <
        2 ^ 64 := by rw [attSums_map_opAtt]; exact hs2
    have hb3 : (attSums ((done ++ [op]).map (opAtt c now))).sum_fraud_rate <
        2 ^ 64 := by rw [attSums_map_opAtt]; exact hs3
    have hb4 : (attSums ((done ++ [op]).map (opAtt c now))).sum_quality_score <
        2 ^ 64 := by rw [attSums_map_opAtt]; exact hs4
    have hok := tryBuildConsensus_ok_spec _ c (done.length + 1) now
      ((done ++ [op]).map (opAtt c now)) hidxW hgeW (by omega)
      hb1 hb2 hb3 hb4
    have hbc : builtConsensus c (done.length + 1) now
        ((done ++ [op]).map (opAtt c now)) =
        consensusOf c (done ++ [op]) now := by
      simp only [builtConsensus, consensusOf, attSums_map_opAtt,
        List.length_append, List.length_singleton]
    refine ⟨writeConsensus ({ st with
        attesterIndex := alSet st.attesterIndex (c, done.length) op.attester
        attestations := alSet st.attestations (c, op.attester)
          (opAtt c now op)
        attestationCount := alSet st.attestationCount c (done.length + 1) })
        c (builtConsensus c (done.length + 1) now
          ((done ++ [op]).map (opAtt c now))),
      by rw [hsub, hok], hviewW, rfl, rfl, ?_⟩
    show alSet st.consensus c _ = _
    rw [if_neg hlt, hbc]

theorem sumImpr_cons (op : SubmitOp) (l : List SubmitOp) :
    sumImpr (op :: l) = op.impressions + sumImpr l := by
  simp [sumImpr]

theorem sumClicks_cons (op : SubmitOp) (l : List SubmitOp) :
    sumClicks (op :: l) = op.clicks + sumClicks l := by
  simp [sumClicks]

theorem sumFraud_cons (op : SubmitOp) (l : List SubmitOp) :
    sumFraud (op :: l) = op.fraud_rate + sumFraud l := by
  simp [sumFraud]

theorem sumQual_cons (op : SubmitOp) (l : List SubmitOp) :
    sumQual (op :: l) = op.quality_score + sumQual l := by
  simp [sumQual]

theorem sumImpr_nil : sumImpr [] = 0 := rfl

theorem sumClicks_nil : sumClicks [] = 0 := rfl

theorem sumFraud_nil : sumFraud [] = 0 := rfl

theorem sumQual_nil : sumQual [] = 0 := rfl

/-- Running a trace of fresh-attester submissions from a state holding
exactly `done`: every call succeeds and the final consensus record is
`consensusOf` over the whole submission list exactly when the quorum floor is
met. -/
theorem runSubmits_go (c now : Nat) (rest : List SubmitOp) :
    ∀ (done : List SubmitOp) (st : Storage),
    CampaignView st c now done →
    get_consensus st c = (if 1 ≤ done.length ∧ minOf st ≤ done.length
      then some (consensusOf c done now) else none) →
    ((done ++ rest).map (·.attester)).Nodup →
    (∀ op ∈ rest, op.attester ∈ st.authorized) →
    (∀ op ∈ rest, validMeasurement op.impressions op.clicks op.fraud_rate
      op.quality_score = true) →
    sumImpr (done ++ rest) < 2 ^ 64 →
    sumClicks (done ++ rest) < 2 ^ 64 →
    sumFraud (done ++ rest) < 2 ^ 64 →
    sumQual (done ++ rest) < 2 ^ 64 →
    ∃ st', runSubmits st c now rest = .ok st' ∧
      CampaignView st' c now (done ++ rest) ∧
      st'.min_attesters_cfg = st.min_attesters_cfg ∧
      st'.authorized = st.authorized ∧
      get_consensus st' c = (if 1 ≤ (done ++ rest).length ∧
          minOf st ≤ (done ++ rest).length
        then some (consensusOf c (done ++ rest) now) else none) := by
  induction rest with
  | nil =>
    intro done st hview hcons _ _ _ _ _ _ _
    exact ⟨st, rfl, by simpa using hview, rfl, rfl, by simpa using hcons⟩
  | cons op rest ih =>
    intro done st hview hcons hnodup hauth hvalid hs1 hs2 hs3 hs4
    have hfresh : ∀ p ∈ done, p.attester ≠ op.attester := by
      have h := hnodup
      rw [List.map_append, List.nodup_append] at h
      obtain ⟨_, _, hdisj⟩ := h
      intro p hp he
      exact hdisj (List.mem_map_of_mem _ hp)
        (by rw [he]; simp)
    have he1 : sumImpr (done ++ op :: rest) =
        sumImpr done + (op.impressions + sumImpr rest) := by
      rw [sumImpr_append, sumImpr_cons]
    have he2 : sumClicks (done ++ op :: rest) =
        sumClicks done + (op.clicks + sumClicks rest) := by
      rw [sumClicks_append, sumClicks_cons]
    have he3 : sumFraud (done ++ op :: rest) =
        sumFraud done + (op.fraud_rate + sumFraud rest) := by
      rw [sumFraud_append, sumFraud_cons]
    have he4 : sumQual (done ++ op :: rest) =
        sumQual done + (op.quality_score + sumQual rest) := by
      rw [sumQual_append, sumQual_cons]
    have hd1 : sumImpr (done ++ [op]) < 2 ^ 64 := by
      rw [sumImpr_append, sumImpr_cons, sumImpr_nil]
      omega
    have hd2 : sumClicks (done ++ [op]) < 2 ^ 64 := by
      rw [sumClicks_append, sumClicks_cons, sumClicks_nil]
      omega
    have hd3 : sumFraud (done ++ [op]) < 2 ^ 64 := by
      rw [sumFraud_append, sumFraud_cons, sumFraud_nil]
      omega
    have hd4 : sumQual (done ++ [op]) < 2 ^ 64 := by
      rw [sumQual_append, sumQual_cons, sumQual_nil]
      omega
    obtain ⟨st1, hok1, hview1, hauth1, hmin1, hcons1⟩ :=
      submit_step_fresh st c now done op hview (hauth op (by simp))
        (hvalid op (by simp)) hfresh hd1 hd2 hd3 hd4
    have hminOf1 : minOf st1 = minOf st := by simp [minOf, hmin1]
    have hcons1' : get_consensus st1 c =
        (if 1 ≤ (done ++ [op]).length ∧ minOf st1 ≤ (done ++ [op]).length
          then some (consensusOf c (done ++ [op]) now) else none) := by
      show alGet st1.consensus c = _
      rw [hcons1, hminOf1]
      by_cases hlt : done.length + 1 < minOf st
      · rw [if_pos hlt]
        have hold : get_consensus st c = none := by
          rw [hcons]
          rw [if_neg (by omega)]
        have hnew : ¬ (1 ≤ (done ++ [op]).length ∧
            minOf st ≤ (done ++ [op]).length) := by
          simp only [List.length_append, List.length_singleton]
          omega
        rw [if_neg hnew]
        exact hold
      · rw [if_neg hlt, if_pos (by
          simp only [List.length_append, List.length_singleton]
          omega)]
        exact alGet_alSet_self _ _ _
    have hih := ih (done ++ [op]) st1 hview1 hcons1'
      (by
        have : (done ++ [op]) ++ rest = done ++ op :: rest := by
          rw [List.append_assoc]
          rfl
        rw [this]
        exact hnodup)
      (fun q hq => by rw [hauth1]; exact hauth q (by simp [hq]))
      (fun q hq => hvalid q (by simp [hq]))
      (by rw [List.append_assoc]; exact hs1)
      (by rw [List.append_assoc]; exact hs2)
      (by rw [List.append_assoc]; exact hs3)
      (by rw [List.append_assoc]; exact hs4)
    obtain ⟨st2, hok2, hview2, hmin2, hauth2, hcons2⟩ := hih
    refine ⟨st2, ?_, ?_, ?_, ?_, ?_⟩
    · show (submit_attestation st op.attester c op.impressions op.clicks
        op.fraud_rate op.quality_score now >>= fun st' =>
          runSubmits st' c now rest) = .ok st2
      rw [hok1]
      simpa [Bind.bind, Except.bind] using hok2
    · have : (done ++ [op]) ++ rest = done ++ op :: rest := by
        rw [List.append_assoc]
        rfl
      rw [← this]
      exact hview2
    · rw [hmin2, hmin1]
    · rw [hauth2, hauth1]
    · rw [hcons2, hminOf1]
      have : (done ++ [op]) ++ rest = done ++ op :: rest := by
        rw [List.append_assoc]
        rfl
      rw [this]

/-- A trace of distinct-attester submissions from a fresh deployment: every
call succeeds, the attestation store holds exactly the trace, and the
consensus record is the truncated mean over the whole trace exactly when the
quorum floor is met. -/
theorem runSubmits_from_init (auth : List Address) (minA : Option Nat)
    (c now : Nat) (ops : List SubmitOp)
    (hnodup : (ops.map (·.attester)).Nodup)
    (hauth : ∀ op ∈ ops, op.attester ∈ auth)
    (hvalid : ∀ op ∈ ops, validMeasurement op.impressions op.clicks
      op.fraud_rate op.quality_score = true)
    (hs1 : sumImpr ops < 2 ^ 64) (hs2 : sumClicks ops < 2 ^ 64)
    (hs3 : sumFraud ops < 2 ^ 64) (hs4 : sumQual ops < 2 ^ 64) :
    ∃ st, runSubmits (initStorage auth minA) c now ops = .ok st ∧
      CampaignView st c now ops ∧
      get_consensus st c = (if 1 ≤ ops.length ∧ minA.getD 3 ≤ ops.length
        then some (consensusOf c ops now) else none) := by
  have hview0 : CampaignView (initStorage auth minA) c now [] := by
    refine ⟨rfl, ?_, ?_, ?_⟩
    · intro i q hq
      simp at hq
    · intro q hq
      simp at hq
    · intro b _
      rfl
  have hcons0 : get_consensus (initStorage auth minA) c =
      (if 1 ≤ ([] : List SubmitOp).length ∧
          minOf (initStorage auth minA) ≤ ([] : List SubmitOp).length
        then some (consensusOf c [] now) else none) := by
    rw [if_neg (by simp)]
    rfl
  obtain ⟨st, hok, hview, _, _, hcons⟩ := runSubmits_go c now ops []
    (initStorage auth minA) hview0 hcons0 (by simpa using hnodup)
    (fun q hq => hauth q hq) (fun q hq => hvalid q hq)
    (by simpa [sumImpr_append, sumImpr_nil] using hs1)
    (by simpa [sumClicks_append, sumClicks_nil] using hs2)
    (by simpa [sumFraud_append, sumFraud_nil] using hs3)
    (by simpa [sumQual_append, sumQual_nil] using hs4)
  refine ⟨st, hok, by simpa using hview, ?_⟩
  rw [hcons]
  simp [minOf, initStorage]

/-! ## Claim C4: order independence of the final consensus -/

/-- C4: for a fixed multiset of submissions by distinct attesters meeting the
quorum floor, any two submission orders (permutations of each other) produce
consensus records with identical averages and identical `total_attesters`:
only the values, never the arrival order, determine the result. -/
theorem C4_order_independence (auth : List Address) (minA : Option Nat)
    (c now : Nat) (ops1 ops2 : List SubmitOp)
    (hperm : ops1.Perm ops2)
    (hnodup : (ops1.map (·.attester)).Nodup)
    (hauth : ∀ op ∈ ops1, op.attester ∈ auth)
    (hvalid : ∀ op ∈ ops1, validMeasurement op.impressions op.clicks
      op.fraud_rate op.quality_score = true)
    (hmin : minA.getD 3 ≤ ops1.length) (hlen : 1 ≤ ops1.length)
    (hs1 : sumImpr ops1 < 2 ^ 64) (hs2 : sumClicks ops1 < 2 ^ 64)
    (hs3 : sumFraud ops1 < 2 ^ 64) (hs4 : sumQual ops1 < 2 ^ 64) :
    ∃ st1 st2 k1 k2,
      runSubmits (initStorage auth minA) c now ops1 = .ok st1 ∧
      runSubmits (initStorage auth minA) c now ops2 = .ok st2 ∧
      get_consensus st1 c = some k1 ∧ get_consensus st2 c = some k2 ∧
      k1.avg_impressions = k2.avg_impressions ∧
      k1.avg_clicks = k2.avg_clicks ∧
      k1.avg_fraud_rate = k2.avg_fraud_rate ∧
      k1.avg_quality_score = k2.avg_quality_score ∧
      k1.total_attesters = k2.total_attesters := by
  have hsi : sumImpr ops2 = sumImpr ops1 := by
    unfold sumImpr
    exact (List.Perm.sum_eq (hperm.map _)).symm
  have hsc : sumClicks ops2 = sumClicks ops1 := by
    unfold sumClicks
    exact (List.Perm.sum_eq (hperm.map _)).symm
  have hsf : sumFraud ops2 = sumFraud ops1 := by
    unfold sumFraud
    exact (List.Perm.sum_eq (hperm.map _)).symm
  have hsq : sumQual ops2 = sumQual ops1 := by
    unfold sumQual
    exact (List.Perm.sum_eq (hperm.map _)).symm
  have hlen2 : ops2.length = ops1.length := hperm.length_eq.symm
  obtain ⟨st1, hok1, _, hcons1⟩ := runSubmits_from_init auth minA c now ops1
    hnodup hauth hvalid hs1 hs2 hs3 hs4
  obtain ⟨st2, hok2, _, hcons2⟩ := runSubmits_from_init auth minA c now ops2
    ((hperm.map (·.attester)).nodup_iff.mp hnodup)
    (fun q hq => hauth q (hperm.mem_iff.mpr hq))
    (fun q hq => hvalid q (hperm.mem_iff.mpr hq))
    (by omega) (by omega) (by omega) (by omega)
  rw [if_pos ⟨hlen, hmin⟩] at hcons1
  rw [if_pos (by omega)] at hcons2
  refine ⟨st1, st2, consensusOf c ops1 now, consensusOf c ops2 now,
    hok1, hok2, hcons1, hcons2, ?_, ?_, ?_, ?_, ?_⟩ <;>
    simp [consensusOf, hsi, hsc, hsf, hsq, hlen2]

/-- Witness for C4: the two-attester scenario submitted in both orders. -/
theorem C4_witness :
    ∃ st1 st2 k1 k2,
      runSubmits (initStorage [1, 2] (some 2)) 7 100
        [⟨1, 1000, 100, 1000, 80⟩, ⟨2, 2000, 200, 2000, 90⟩] = .ok st1 ∧
      runSubmits (initStorage [1, 2] (some 2)) 7 100
        [⟨2, 2000, 200, 2000, 90⟩, ⟨1, 1000, 100, 1000, 80⟩] = .ok st2 ∧
      get_consensus st1 7 = some k1 ∧ get_consensus st2 7 = some k2 ∧
      k1.avg_impressions = k2.avg_impressions ∧
      k1.avg_clicks = k2.avg_clicks ∧
      k1.avg_fraud_rate = k2.avg_fraud_rate ∧
      k1.avg_quality_score = k2.avg_quality_score ∧
      k1.total_attesters = k2.total_attesters :=
  C4_order_independence [1, 2] (some 2) 7 100
    [⟨1, 1000, 100, 1000, 80⟩, ⟨2, 2000, 200, 2000, 90⟩]
    [⟨2, 2000, 200, 2000, 90⟩, ⟨1, 1000, 100, 1000, 80⟩]
    (by decide) (by decide) (by decide) (by decide) (by decide) (by decide)
    (by decide) (by decide) (by decide) (by decide)

/-! ## Per-call effect of a successful submit on count and consensus -/

theorem count_le_newCountAfter (st : Storage) (a : Address) (c : Nat) :
    countOf st c ≤ newCountAfter st a c := by
  simp only [newCountAfter, countOf]
  split <;> omega

theorem submit_ok_post (st : Storage) (a : Address) (c imp cl fr qs now : Nat)
    (st' : Storage)
    (hok : submit_attestation st a c imp cl fr qs now = .ok st') :
    countOf st' c = newCountAfter st a c ∧
    st'.min_attesters_cfg = st.min_attesters_cfg ∧
    st'.authorized = st.authorized ∧
    ((newCountAfter st a c < minOf st ∧ st'.consensus = st.consensus) ∨
      (minOf st ≤ newCountAfter st a c ∧
        ∃ atts : List PerformanceAttestation,
          indexedAttestations st' c (newCountAfter st a c) = atts.map some ∧
          st'.consensus = alSet st.consensus c
            (builtConsensus c (newCountAfter st a c) now atts))) := by
  obtain ⟨hauth, hvalid, htry⟩ :=
    submit_ok_inv st a c imp cl fr qs now st' hok
  have hWmin : (submitWrites st a c imp cl fr qs now).min_attesters_cfg =
      st.min_attesters_cfg := rfl
  have hWauth : (submitWrites st a c imp cl fr qs now).authorized =
      st.authorized := rfl
  have hWcons : (submitWrites st a c imp cl fr qs now).consensus =
      st.consensus := rfl
  obtain ⟨hfa, hfm, hfatt, hfidx, hfcnt⟩ :=
    tryBuildConsensus_ok_frame _ c _ now st' htry
  have hcnt : countOf st' c = newCountAfter st a c := by
    show (alGet st'.attestationCount c).getD 0 = _
    rw [hfcnt]
    show (alGet (alSet st.attestationCount c (newCountAfter st a c)) c).getD 0
      = _
    rw [alGet_alSet_self]
    rfl
  refine ⟨hcnt, by rw [hfm, hWmin], by rw [hfa, hWauth], ?_⟩
  rcases tryBuildConsensus_ok_consensus_cases _ c _ now st' htry with
    ⟨hlt, he⟩ | ⟨hge, _, atts, hatts, he⟩
  · exact Or.inl ⟨hlt, by rw [he, hWcons]⟩
  · refine Or.inr ⟨hge, atts, ?_, ?_⟩
    · have hidx : indexedAttestations st' c (newCountAfter st a c) =
          indexedAttestations (submitWrites st a c imp cl fr qs now) c
            (newCountAfter st a c) := by
        subst he
        rfl
      rw [hidx]
      exact hatts
    · rw [he]
      rfl

theorem runSubmits_count_min_mono (c now : Nat) (ops : List SubmitOp) :
    ∀ (st st' : Storage), runSubmits st c now ops = .ok st' →
      countOf st c ≤ countOf st' c ∧
      st'.min_attesters_cfg = st.min_attesters_cfg := by
  induction ops with
  | nil =>
    intro st st' h
    have he : st = st' := Except.ok.inj h
    subst he
    exact ⟨le_refl _, rfl⟩
  | cons op rest ih =>
    intro st st' h
    have hb : (submit_attestation st op.attester c op.impressions op.clicks
        op.fraud_rate op.quality_score now >>= fun st1 =>
          runSubmits st1 c now rest) = .ok st' := h
    obtain ⟨st1, h1, h2⟩ := (exceptBind_ok _ _ _).mp hb
    obtain ⟨hc1, hm1, _, _⟩ := submit_ok_post st op.attester c op.impressions
      op.clicks op.fraud_rate op.quality_score now st1 h1
    obtain ⟨hc2, hm2⟩ := ih st1 st' h2
    refine ⟨?_, by rw [hm2, hm1]⟩
    have := count_le_newCountAfter st op.attester c
    omega

theorem runSubmits_consensus_below_min (c now : Nat) (ops : List SubmitOp) :
    ∀ (st st' : Storage), runSubmits st c now ops = .ok st' →
      countOf st' c < minOf st →
      get_consensus st' c = get_consensus st c := by
  induction ops with
  | nil =>
    intro st st' h _
    have he : st = st' := Except.ok.inj h
    subst he
    rfl
  | cons op rest ih =>
    intro st st' h hlt
    have hb : (submit_attestation st op.attester c op.impressions op.clicks
        op.fraud_rate op.quality_score now >>= fun st1 =>
          runSubmits st1 c now rest) = .ok st' := h
    obtain ⟨st1, h1, h2⟩ := (exceptBind_ok _ _ _).mp hb
    obtain ⟨hc1, hm1, _, hcons1⟩ := submit_ok_post st op.attester c
      op.impressions op.clicks op.fraud_rate op.quality_score now st1 h1
    have hmono := runSubmits_count_min_mono c now rest st1 st' h2
    have hm1' : minOf st1 = minOf st := by simp [minOf, hm1]
    have hlt1 : newCountAfter st op.attester c < minOf st := by
      rw [← hc1]
      omega
    rcases hcons1 with ⟨_, heq⟩ | ⟨hge, _⟩
    · have hih := ih st1 st' h2 (by rw [hm1']; omega)
      rw [hih]
      show alGet st1.consensus c = alGet st.consensus c
      rw [heq]
    · omega

/-! ## Claim C2: quorum gating -/

/-- C2: (i) from a fresh deployment, as long as the attester count of a
campaign has never reached the quorum floor, `get_consensus` answers
`NotReached` (`none`): no consensus is ever computed below quorum and the
(absent) prior record is untouched.  (ii) The successful submission that
brings the count to exactly `min_attesters` makes a consensus record —
with `consensus_reached = true` and `total_attesters = min_attesters` —
available to `get_consensus` synchronously. -/
theorem C2_quorum_gating :
    (∀ (auth : List Address) (minA : Option Nat) (c now : Nat)
      (ops : List SubmitOp) (st : Storage),
      runSubmits (initStorage auth minA) c now ops = .ok st →
      countOf st c < minOf st →
      get_consensus st c = none) ∧
    (∀ (st : Storage) (a : Address) (c imp cl fr qs now : Nat)
      (st' : Storage),
      submit_attestation st a c imp cl fr qs now = .ok st' →
      countOf st' c = minOf st →
      ∃ k, get_consensus st' c = some k ∧ k.consensus_reached = true ∧
        k.total_attesters = minOf st) := by
  constructor
  · intro auth minA c now ops st hrun hlt
    have hbelow := runSubmits_consensus_below_min c now ops
      (initStorage auth minA) st hrun (by
        have hm : minOf (initStorage auth minA) = minA.getD 3 := rfl
        have hm2 : minOf st = minA.getD 3 := by
          have := (runSubmits_count_min_mono c now ops _ st hrun).2
          simp [minOf, this, initStorage]
        omega)
    rw [hbelow]
    rfl
  · intro st a c imp cl fr qs now st' hok hexact
    obtain ⟨hcnt, _, _, hcons⟩ := submit_ok_post st a c imp cl fr qs now st'
      hok
    rcases hcons with ⟨hlt, _⟩ | ⟨_, atts, _, heq⟩
    · omega
    · refine ⟨builtConsensus c (newCountAfter st a c) now atts, ?_, rfl, ?_⟩
      · show alGet st'.consensus c = _
        rw [heq]
        exact alGet_alSet_self _ _ _
      · show newCountAfter st a c = minOf st
        omega

/-- Witness for C2: (i) the empty trace from a fresh deployment leaves the
count at 0 < 3 and `get_consensus` at `NotReached`; (ii) attester 2's
submission brings campaign 7 from count 1 to exactly the floor 2 and a
reached consensus record becomes readable. -/
theorem C2_witness :
    (runSubmits (initStorage [1] none) 7 100 [] = .ok (initStorage [1] none) ∧
      countOf (initStorage [1] none) 7 < minOf (initStorage [1] none) ∧
      get_consensus (initStorage [1] none) 7 = none) ∧
    (countOf ⟨[1, 2], some 2,
        [((7, 2), ⟨7, 2, 2000, 200, 2000, 90, 100⟩),
          ((7, 1), ⟨7, 1, 1000, 100, 1000, 80, 100⟩)],
        [((7, 1), 2), ((7, 0), 1)], [(7, 2)],
        [(7, ⟨7, 2, 1500, 150, 1500, 85, true, 100⟩)]⟩ 7 =
      minOf ⟨[1, 2], some 2,
        [((7, 1), ⟨7, 1, 1000, 100, 1000, 80, 100⟩)], [((7, 0), 1)],
        [(7, 1)], []⟩ ∧
      ∃ k, get_consensus ⟨[1, 2], some 2,
        [((7, 2), ⟨7, 2, 2000, 200, 2000, 90, 100⟩),
          ((7, 1), ⟨7, 1, 1000, 100, 1000, 80, 100⟩)],
        [((7, 1), 2), ((7, 0), 1)], [(7, 2)],
        [(7, ⟨7, 2, 1500, 150, 1500, 85, true, 100⟩)]⟩ 7 = some k ∧
        k.consensus_reached = true ∧
        k.total_attesters = minOf ⟨[1, 2], some 2,
          [((7, 1), ⟨7, 1, 1000, 100, 1000, 80, 100⟩)], [((7, 0), 1)],
          [(7, 1)], []⟩) :=
  ⟨⟨rfl, by decide, C2_quorum_gating.1 [1] none 7 100 [] (initStorage [1] none)
      rfl (by decide)⟩,
    ⟨by decide, C2_quorum_gating.2 ⟨[1, 2], some 2,
      [((7, 1), ⟨7, 1, 1000, 100, 1000, 80, 100⟩)], [((7, 0), 1)],
      [(7, 1)], []⟩ 2 7 2000 200 2000 90 100
      ⟨[1, 2], some 2,
        [((7, 2), ⟨7, 2, 2000, 200, 2000, 90, 100⟩),
          ((7, 1), ⟨7, 1, 1000, 100, 1000, 80, 100⟩)],
        [((7, 1), 2), ((7, 0), 1)], [(7, 2)],
        [(7, ⟨7, 2, 1500, 150, 1500, 85, true, 100⟩)]⟩
      (by rfl) (by decide)⟩⟩

/-! ## Claim C8: monotone consensus state and full recomputation -/

/-- C8: per campaign the consensus state machine is monotone — once a stored
record has `consensus_reached = true`, no later successful submission ever
stores a record with it false — and every successful submission whose updated
count meets the quorum floor re-triggers the full recomputation: the stored
record's `total_attesters` is the updated count and its averages are the
truncated means over *all* currently indexed attestations, never a stale
snapshot. -/
theorem C8_monotone_and_full_recompute :
    (∀ (st : Storage) (a : Address) (c imp cl fr qs now : Nat)
      (st' : Storage) (k : OracleConsensus),
      submit_attestation st a c imp cl fr qs now = .ok st' →
      get_consensus st c = some k → k.consensus_reached = true →
      ∃ k', get_consensus st' c = some k' ∧ k'.consensus_reached = true) ∧
    (∀ (st : Storage) (a : Address) (c imp cl fr qs now : Nat)
      (st' : Storage),
      submit_attestation st a c imp cl fr qs now = .ok st' →
      minOf st ≤ countOf st' c →
      ∃ atts : List PerformanceAttestation,
        indexedAttestations st' c (countOf st' c) = atts.map some ∧
        get_consensus st' c =
          some (builtConsensus c (countOf st' c) now atts)) := by
  constructor
  · intro st a c imp cl fr qs now st' k hok hprev hreach
    obtain ⟨hcnt, _, _, hcons⟩ := submit_ok_post st a c imp cl fr qs now st'
      hok
    rcases hcons with ⟨_, heq⟩ | ⟨_, atts, _, heq⟩
    · refine ⟨k, ?_, hreach⟩
      show alGet st'.consensus c = some k
      rw [heq]
      exact hprev
    · refine ⟨builtConsensus c (newCountAfter st a c) now atts, ?_, rfl⟩
      show alGet st'.consensus c = _
      rw [heq]
      exact alGet_alSet_self _ _ _
  · intro st a c imp cl fr qs now st' hok hge
    obtain ⟨hcnt, _, _, hcons⟩ := submit_ok_post st a c imp cl fr qs now st'
      hok
    rcases hcons with ⟨hlt, _⟩ | ⟨_, atts, hatts, heq⟩
    · omega
    · refine ⟨atts, ?_, ?_⟩
      · rw [hcnt]
        exact hatts
      · rw [hcnt]
        show alGet st'.consensus c = _
        rw [heq]
        exact alGet_alSet_self _ _ _

/-- Witness for C8: attester 1 resubmits after consensus was already reached
for campaign 7 (floor 2, count 2); the consensus stays reached and is fully
recomputed from both stored attestations. -/
theorem C8_witness :
    get_consensus ⟨[1, 2], some 2,
      [((7, 2), ⟨7, 2, 2000, 200, 2000, 90, 100⟩),
        ((7, 1), ⟨7, 1, 1000, 100, 1000, 80, 100⟩)],
      [((7, 1), 2), ((7, 0), 1)], [(7, 2)],
      [(7, ⟨7, 2, 1500, 150, 1500, 85, true, 100⟩)]⟩ 7 =
      some ⟨7, 2, 1500, 150, 1500, 85, true, 100⟩ ∧
    ∃ k', get_consensus ⟨[1, 2], some 2,
      [((7, 1), ⟨7, 1, 3000, 300, 3000, 70, 200⟩),
        ((7, 2), ⟨7, 2, 2000, 200, 2000, 90, 100⟩)],
      [((7, 2), 1), ((7, 1), 2), ((7, 0), 1)], [(7, 2)],
      [(7, ⟨7, 2, 2500, 250, 2500, 80, true, 200⟩)]⟩ 7 = some k' ∧
      k'.consensus_reached = true :=
  ⟨rfl,
    (C8_monotone_and_full_recompute.1 ⟨[1, 2], some 2,
      [((7, 2), ⟨7, 2, 2000, 200, 2000, 90, 100⟩),
        ((7, 1), ⟨7, 1, 1000, 100, 1000, 80, 100⟩)],
      [((7, 1), 2), ((7, 0), 1)], [(7, 2)],
      [(7, ⟨7, 2, 1500, 150, 1500, 85, true, 100⟩)]⟩ 1 7 3000 300 3000 70 200
      ⟨[1, 2], some 2,
        [((7, 1), ⟨7, 1, 3000, 300, 3000, 70, 200⟩),
          ((7, 2), ⟨7, 2, 2000, 200, 2000, 90, 100⟩)],
        [((7, 2), 1), ((7, 1), 2), ((7, 0), 1)], [(7, 2)],
        [(7, ⟨7, 2, 2500, 250, 2500, 80, true, 200⟩)]⟩
      ⟨7, 2, 1500, 150, 1500, 85, true, 100⟩
      (by rfl) (by rfl) (by rfl))⟩

/-! ## Claim C3: resubmission semantics and the index invariant -/

/-- Counterexample to C3 as stated: attester 1 submits for campaign 7 (index
entry at position 0, count 1) and then resubmits.  The resubmission runs the
unconditional index write at position `count = 1`: it *does* append a new
Attester Index Entry — position 1, absent before, present after — while the
count stays 1, so the store holds 2 index entries for 1 distinct attester. -/
theorem C3_counterexample :
    runSubmits (initStorage [1] none) 7 100 [⟨1, 1000, 100, 1000, 80⟩] =
      .ok ⟨[1], none, [((7, 1), ⟨7, 1, 1000, 100, 1000, 80, 100⟩)],
        [((7, 0), 1)], [(7, 1)], []⟩ ∧
    alGet ([((7, 0), 1)] : List ((Nat × Nat) × Address)) (7, 1) = none ∧
    submit_attestation ⟨[1], none,
        [((7, 1), ⟨7, 1, 1000, 100, 1000, 80, 100⟩)], [((7, 0), 1)],
        [(7, 1)], []⟩ 1 7 500 50 500 40 100 =
      .ok ⟨[1], none, [((7, 1), ⟨7, 1, 500, 50, 500, 40, 100⟩)],
        [((7, 1), 1), ((7, 0), 1)], [(7, 1)], []⟩ ∧
    alGet ([((7, 1), 1), ((7, 0), 1)] : List ((Nat × Nat) × Address)) (7, 1) =
      some 1 ∧
    ([((7, 1), 1), ((7, 0), 1)] : List ((Nat × Nat) × Address)).length = 2 ∧
    countOf ⟨[1], none, [((7, 1), ⟨7, 1, 500, 50, 500, 40, 100⟩)],
      [((7, 1), 1), ((7, 0), 1)], [(7, 1)], []⟩ 7 = 1 :=
  ⟨rfl, rfl, rfl, rfl, rfl, rfl⟩

/-- C3 (amended): a second submit by an attester who already has an
attestation overwrites that attestation in place, leaves the authoritative
count (`total_attesters`) unchanged, and leaves every index position other
than `count` unchanged — so the live index (positions `0..count-1`) still
maps to the distinct attesters in first-submission order.  However, the
unconditional index write stores the resubmitter's address at position
`count`, one past the live range (a scratch entry the next new attester
overwrites), so the raw store may briefly hold one more index entry than
there are distinct attesters. -/
theorem C3_resubmission_in_place (st : Storage) (a : Address)
    (c imp cl fr qs now : Nat) (st' : Storage)
    (hex : (alGet st.attestations (c, a)).isSome)
    (hok : submit_attestation st a c imp cl fr qs now = .ok st') :
    countOf st' c = countOf st c ∧
    alGet st'.attestations (c, a) = some ⟨c, a, imp, cl, fr, qs, now⟩ ∧
    (∀ b, b ≠ a →
      alGet st'.attestations (c, b) = alGet st.attestations (c, b)) ∧
    (∀ p, p ≠ countOf st c →
      alGet st'.attesterIndex (c, p) = alGet st.attesterIndex (c, p)) ∧
    alGet st'.attesterIndex (c, countOf st c) = some a := by
  obtain ⟨v, hv⟩ := Option.isSome_iff_exists.mp hex
  have hnca : newCountAfter st a c = countOf st c := by
    simp [newCountAfter, hv, countOf]
  obtain ⟨hcnt, _, _, _⟩ := submit_ok_post st a c imp cl fr qs now st' hok
  obtain ⟨_, _, htry⟩ := submit_ok_inv st a c imp cl fr qs now st' hok
  obtain ⟨_, _, hfatt, hfidx, _⟩ := tryBuildConsensus_ok_frame _ c _ now st'
    htry
  have hatt : st'.attestations =
      alSet st.attestations (c, a) ⟨c, a, imp, cl, fr, qs, now⟩ := by
    rw [hfatt]
    rfl
  have hidx : st'.attesterIndex =
      alSet st.attesterIndex (c, countOf st c) a := by
    rw [hfidx]
    rfl
  refine ⟨by rw [hcnt, hnca], ?_, ?_, ?_, ?_⟩
  · rw [hatt]
    exact alGet_alSet_self _ _ _
  · intro b hb
    rw [hatt]
    exact alGet_alSet_ne _ _ _ _ (by
      intro he
      exact hb (congrArg Prod.snd he))
  · intro p hp
    rw [hidx]
    exact alGet_alSet_ne _ _ _ _ (by
      intro he
      exact hp (congrArg Prod.snd he))
  · rw [hidx]
    exact alGet_alSet_self _ _ _

/-- Witness for C3 (amended) at the counterexample's concrete resubmission. -/
theorem C3_witness :
    countOf ⟨[1], none, [((7, 1), ⟨7, 1, 500, 50, 500, 40, 100⟩)],
        [((7, 1), 1), ((7, 0), 1)], [(7, 1)], []⟩ 7 =
      countOf ⟨[1], none, [((7, 1), ⟨7, 1, 1000, 100, 1000, 80, 100⟩)],
        [((7, 0), 1)], [(7, 1)], []⟩ 7 ∧
    alGet (⟨[1], none, [((7, 1), ⟨7, 1, 500, 50, 500, 40, 100⟩)],
        [((7, 1), 1), ((7, 0), 1)], [(7, 1)], []⟩ : Storage).attestations
      (7, 1) = some ⟨7, 1, 500, 50, 500, 40, 100⟩ :=
  ⟨(C3_resubmission_in_place ⟨[1], none,
      [((7, 1), ⟨7, 1, 1000, 100, 1000, 80, 100⟩)], [((7, 0), 1)],
      [(7, 1)], []⟩ 1 7 500 50 500 40 100
      ⟨[1], none, [((7, 1), ⟨7, 1, 500, 50, 500, 40, 100⟩)],
        [((7, 1), 1), ((7, 0), 1)], [(7, 1)], []⟩
      (by rfl) (by rfl)).1,
    (C3_resubmission_in_place ⟨[1], none,
      [((7, 1), ⟨7, 1, 1000, 100, 1000, 80, 100⟩)], [((7, 0), 1)],
      [(7, 1)], []⟩ 1 7 500 50 500 40 100
      ⟨[1], none, [((7, 1), ⟨7, 1, 500, 50, 500, 40, 100⟩)],
        [((7, 1), 1), ((7, 0), 1)], [(7, 1)], []⟩
      (by rfl) (by rfl)).2.1⟩

/-! ## Claim C5: outlier dilution under integer truncation -/

/-- Counterexample to C5 as stated: with `min_attesters = 2`, attester 1
reports X = 1 in every field and attester 2 reports the outlier Y = 0.
Truncation makes every average `1 / 2 = 0`: the outlier's value *is* the
consensus, and `|avg - X| = 1 = |Y - X|`, not strictly less. -/
theorem C5_counterexample :
    Except.map (fun st => get_consensus st 7)
      (runSubmits (initStorage [1, 2] (some 2)) 7 100
        [⟨1, 1, 1, 1, 1⟩, ⟨2, 0, 0, 0, 0⟩]) =
      .ok (some ⟨7, 2, 0, 0, 0, 0, true, 100⟩) ∧
    ¬ (|(0 : ℤ) - 1| < |(0 : ℤ) - 1|) :=
  ⟨rfl, by decide⟩

theorem sum_map_proj_const {α : Type} (l : List α) (g : α → SubmitOp)
    (f : SubmitOp → Nat) (v : Nat) (h : ∀ a ∈ l, f (g a) = v) :
    ((l.map g).map f).sum = l.length * v := by
  induction l with
  | nil => simp
  | cons a t ih =>
    simp only [List.map_cons, List.sum_cons, List.length_cons]
    rw [h a (by simp), ih (fun b hb => h b (by simp [hb]))]
    rw [Nat.succ_mul]
    omega

theorem avg_le_bound (S n B : Nat) (hn : 0 < n) (hS : S ≤ n * B) :
    S / n ≤ B := by
  calc S / n ≤ (n * B) / n := Nat.div_le_div_right hS
    _ = B := Nat.mul_div_cancel_left B hn

/-- The arithmetic core of outlier dilution: when `n - 1` reporters say `X`
and one says `Y`, the truncated mean `((n-1)X + Y) / n` is within `|Y - X|`
of `X`, strictly so except in the truncation corner case `Y = X - 1`. -/
theorem truncated_mean_dilution (n X Y : Nat) (hn : 2 ≤ n) :
    |((((n - 1) * X + Y) / n : ℕ) : ℤ) - (X : ℤ)| ≤ |(Y : ℤ) - (X : ℤ)| ∧
    ((X < Y ∨ Y + 2 ≤ X) →
      |((((n - 1) * X + Y) / n : ℕ) : ℤ) - (X : ℤ)| <
        |(Y : ℤ) - (X : ℤ)|) := by
  have hn0 : 0 < n := by omega
  have hnx : n * X = (n - 1) * X + X := by
    cases n with
    | zero => exact absurd hn (by omega)
    | succ k => simp [Nat.succ_sub_one, Nat.succ_mul]
  rcases Nat.le_total X Y with hxy | hyx
  · have hnum : (n - 1) * X + Y = n * X + (Y - X) := by omega
    have havg : ((n - 1) * X + Y) / n = X + (Y - X) / n := by
      rw [hnum, Nat.mul_add_div hn0]
    have hdle : (Y - X) / n ≤ Y - X := Nat.div_le_self _ _
    constructor
    · rw [havg]
      generalize hq : (Y - X) / n = q at hdle ⊢
      rw [abs_of_nonneg (by omega), abs_of_nonneg (by omega)]
      omega
    · intro hcase
      have hxy' : X < Y := by omega
      have hdlt : (Y - X) / n < Y - X := Nat.div_lt_self (by omega) (by omega)
      rw [havg]
      generalize hq : (Y - X) / n = q at hdle hdlt ⊢
      rw [abs_of_nonneg (by omega), abs_of_nonneg (by omega)]
      omega
  · have hny : n * Y = (n - 1) * Y + Y := by
      cases n with
      | zero => exact absurd hn (by omega)
      | succ k => simp [Nat.succ_sub_one, Nat.succ_mul]
    have havg_le : ((n - 1) * X + Y) / n ≤ X := by
      have h1 : (n - 1) * X + Y ≤ n * X := by omega
      calc ((n - 1) * X + Y) / n ≤ (n * X) / n := Nat.div_le_div_right h1
        _ = X := Nat.mul_div_cancel_left X hn0
    have havg_ge : Y ≤ ((n - 1) * X + Y) / n := by
      have h2 : n * Y ≤ (n - 1) * X + Y := by
        have h3 := Nat.mul_le_mul_left (n - 1) hyx
        omega
      calc Y = (n * Y) / n := (Nat.mul_div_cancel_left Y hn0).symm
        _ ≤ _ := Nat.div_le_div_right h2
    constructor
    · generalize hq : ((n - 1) * X + Y) / n = q at havg_le havg_ge ⊢
      rw [abs_of_nonpos (by omega), abs_of_nonpos (by omega)]
      omega
    · intro hcase
      have hd2 : Y + 2 ≤ X := by omega
      have hstrict : Y + 1 ≤ ((n - 1) * X + Y) / n := by
        rw [Nat.le_div_iff_mul_le hn0]
        have hxd : (n - 1) * X = (n - 1) * Y + (n - 1) * (X - Y) := by
          rw [← Nat.mul_add]
          congr 1
          omega
        have hlow : (n - 1) * 2 ≤ (n - 1) * (X - Y) :=
          Nat.mul_le_mul_left _ (by omega)
        have hexp : (Y + 1) * n = n * Y + n := by
          rw [Nat.add_mul, Nat.one_mul, Nat.mul_comm]
        omega
      generalize hq : ((n - 1) * X + Y) / n = q at havg_le havg_ge hstrict ⊢
      rw [abs_of_nonpos (by omega), abs_of_nonpos (by omega)]
      omega

/-- C5 (amended): when `m ≥ 1` attesters report X in every field and one
more reports Y, the consensus averages satisfy `|avg - X| ≤ |Y - X|` in every
field — the outlier is diluted by `1/n` — and strictly so whenever `Y > X` or
`X ≥ Y + 2`; only in the truncation corner case `Y = X - 1` can the average
reach the outlier's value. -/
theorem C5_outlier_dilution (m : Nat) (hm : 1 ≤ m) (hm32 : m ≤ 2 ^ 32)
    (minA : Option Nat) (c now : Nat) (xi xc xf xq yi yc yf yq : Nat)
    (hvx : validMeasurement xi xc xf xq = true)
    (hvy : validMeasurement yi yc yf yq = true)
    (hmin : minA.getD 3 ≤ m + 1)
    (hs1 : m * xi + yi < 2 ^ 64) (hs2 : m * xc + yc < 2 ^ 64) :
    ∃ st k, runSubmits (initStorage (List.range (m + 1)) minA) c now
        ((List.range m).map (fun i => ⟨i, xi, xc, xf, xq⟩) ++
          [⟨m, yi, yc, yf, yq⟩]) = .ok st ∧
      get_consensus st c = some k ∧
      k.total_attesters = m + 1 ∧ k.consensus_reached = true ∧
      |(k.avg_impressions : ℤ) - (xi : ℤ)| ≤ |(yi : ℤ) - (xi : ℤ)| ∧
      |(k.avg_clicks : ℤ) - (xc : ℤ)| ≤ |(yc : ℤ) - (xc : ℤ)| ∧
      |(k.avg_fraud_rate : ℤ) - (xf : ℤ)| ≤ |(yf : ℤ) - (xf : ℤ)| ∧
      |(k.avg_quality_score : ℤ) - (xq : ℤ)| ≤ |(yq : ℤ) - (xq : ℤ)| ∧
      ((xi < yi ∨ yi + 2 ≤ xi) →
        |(k.avg_impressions : ℤ) - (xi : ℤ)| < |(yi : ℤ) - (xi : ℤ)|) ∧
      ((xc < yc ∨ yc + 2 ≤ xc) →
        |(k.avg_clicks : ℤ) - (xc : ℤ)| < |(yc : ℤ) - (xc : ℤ)|) ∧
      ((xf < yf ∨ yf + 2 ≤ xf) →
        |(k.avg_fraud_rate : ℤ) - (xf : ℤ)| < |(yf : ℤ) - (xf : ℤ)|) ∧
      ((xq < yq ∨ yq + 2 ≤ xq) →
        |(k.avg_quality_score : ℤ) - (xq : ℤ)| < |(yq : ℤ) - (xq : ℤ)|) := by
  have hx := hvx
  simp [validMeasurement] at hx
  obtain ⟨⟨⟨hxi, hxc⟩, hxf⟩, hxq⟩ := hx
  have hy := hvy
  simp [validMeasurement] at hy
  obtain ⟨⟨⟨hyi, hyc⟩, hyf⟩, hyq⟩ := hy
  set ops : List SubmitOp := (List.range m).map (fun i => ⟨i, xi, xc, xf, xq⟩)
    ++ [⟨m, yi, yc, yf, yq⟩] with hops
  have hlen : ops.length = m + 1 := by simp [hops]
  have hmap : ops.map (·.attester) = List.range (m + 1) := by
    rw [hops, List.map_append, List.map_map, List.range_succ]
    congr 1
    exact List.map_id _
  have hnodup : (ops.map (·.attester)).Nodup := by
    rw [hmap]
    exact List.nodup_range _
  have hauth : ∀ op ∈ ops, op.attester ∈ List.range (m + 1) := by
    intro op hop
    have : op.attester ∈ ops.map (·.attester) := List.mem_map_of_mem _ hop
    rw [hmap] at this
    exact this
  have hvalid : ∀ op ∈ ops, validMeasurement op.impressions op.clicks
      op.fraud_rate op.quality_score = true := by
    intro op hop
    rw [hops] at hop
    rcases List.mem_append.mp hop with hx | hy
    · obtain ⟨i, _, he⟩ := List.mem_map.mp hx
      rw [← he]
      exact hvx
    · have he : op = ⟨m, yi, yc, yf, yq⟩ := by simpa using hy
      rw [he]
      exact hvy
  have hsi : sumImpr ops = m * xi + yi := by
    simp only [hops, sumImpr_append, sumImpr_cons, sumImpr_nil]
    unfold sumImpr
    rw [sum_map_proj_const _ _ _ xi (fun a _ => rfl), List.length_range]
    omega
  have hsc : sumClicks ops = m * xc + yc := by
    simp only [hops, sumClicks_append, sumClicks_cons, sumClicks_nil]
    unfold sumClicks
    rw [sum_map_proj_const _ _ _ xc (fun a _ => rfl), List.length_range]
    omega
  have hsf : sumFraud ops = m * xf + yf := by
    simp only [hops, sumFraud_append, sumFraud_cons, sumFraud_nil]
    unfold sumFraud
    rw [sum_map_proj_const _ _ _ xf (fun a _ => rfl), List.length_range]
    omega
  have hsq : sumQual ops = m * xq + yq := by
    simp only [hops, sumQual_append, sumQual_cons, sumQual_nil]
    unfold sumQual
    rw [sum_map_proj_const _ _ _ xq (fun a _ => rfl), List.length_range]
    omega
  have hmxf : m * xf ≤ m * 10000 := Nat.mul_le_mul_left m hxf
  have hmxq : m * xq ≤ m * 10000 := Nat.mul_le_mul_left m
    (le_trans hxq (by omega))
  have hs3 : sumFraud ops < 2 ^ 64 := by rw [hsf]; omega
  have hs4 : sumQual ops < 2 ^ 64 := by rw [hsq]; omega
  obtain ⟨st, hok, _, hcons⟩ := runSubmits_from_init (List.range (m + 1))
    minA c now ops hnodup hauth hvalid (by rw [hsi]; omega)
    (by rw [hsc]; omega) hs3 hs4
  rw [if_pos ⟨by omega, by omega⟩] at hcons
  have hSf : m * xf + yf ≤ (m + 1) * 10000 := by
    have hexp : (m + 1) * 10000 = m * 10000 + 10000 := by
      rw [Nat.add_mul, Nat.one_mul]
    omega
  have hSq : m * xq + yq ≤ (m + 1) * 10000 := by
    have hexp : (m + 1) * 10000 = m * 10000 + 10000 := by
      rw [Nat.add_mul, Nat.one_mul]
    omega
  have havgf : (m * xf + yf) / (m + 1) ≤ 10000 :=
    avg_le_bound _ _ _ (by omega) hSf
  have havgq : (m * xq + yq) / (m + 1) ≤ 10000 :=
    avg_le_bound _ _ _ (by omega) hSq
  have hki : (consensusOf c ops now).avg_impressions =
      (m * xi + yi) / (m + 1) := by
    simp [consensusOf, hsi, hlen]
  have hkc : (consensusOf c ops now).avg_clicks =
      (m * xc + yc) / (m + 1) := by
    simp [consensusOf, hsc, hlen]
  have hkf : (consensusOf c ops now).avg_fraud_rate =
      (m * xf + yf) / (m + 1) := by
    simp only [consensusOf, hsf, hlen]
    exact Nat.mod_eq_of_lt (by omega)
  have hkq : (consensusOf c ops now).avg_quality_score =
      (m * xq + yq) / (m + 1) := by
    simp only [consensusOf, hsq, hlen]
    exact Nat.mod_eq_of_lt (by omega)
  have hdi := truncated_mean_dilution (m + 1) xi yi (by omega)
  have hdc := truncated_mean_dilution (m + 1) xc yc (by omega)
  have hdf := truncated_mean_dilution (m + 1) xf yf (by omega)
  have hdq := truncated_mean_dilution (m + 1) xq yq (by omega)
  simp only [Nat.add_sub_cancel] at hdi hdc hdf hdq
  refine ⟨st, consensusOf c ops now, hok, hcons, by simp [consensusOf, hlen],
    rfl, ?_, ?_, ?_, ?_, ?_, ?_, ?_, ?_⟩
  · rw [hki]; exact hdi.1
  · rw [hkc]; exact hdc.1
  · rw [hkf]; exact hdf.1
  · rw [hkq]; exact hdq.1
  · intro hcase; rw [hki]; exact hdi.2 hcase
  · intro hcase; rw [hkc]; exact hdc.2 hcase
  · intro hcase; rw [hkf]; exact hdf.2 hcase
  · intro hcase; rw [hkq]; exact hdq.2 hcase

/-- Witness for C5 at the spec's dilution scenario: two attesters report
(1000, 100, 1000, 80) and a third reports the outlier (9000, 900, 9000, 10). -/
theorem C5_witness :
    ∃ st k, runSubmits (initStorage (List.range 3) (some 2)) 7 100
        ((List.range 2).map (fun i => ⟨i, 1000, 100, 1000, 80⟩) ++
          [⟨2, 9000, 900, 9000, 10⟩]) = .ok st ∧
      get_consensus st 7 = some k ∧
      k.total_attesters = 3 ∧ k.consensus_reached = true ∧
      |(k.avg_impressions : ℤ) - (1000 : ℤ)| ≤ |(9000 : ℤ) - (1000 : ℤ)| ∧
      |(k.avg_clicks : ℤ) - (100 : ℤ)| ≤ |(900 : ℤ) - (100 : ℤ)| ∧
      |(k.avg_fraud_rate : ℤ) - (1000 : ℤ)| ≤ |(9000 : ℤ) - (1000 : ℤ)| ∧
      |(k.avg_quality_score : ℤ) - (80 : ℤ)| ≤ |(10 : ℤ) - (80 : ℤ)| ∧
      ((1000 < 9000 ∨ 9000 + 2 ≤ 1000) →
        |(k.avg_impressions : ℤ) - (1000 : ℤ)| < |(9000 : ℤ) - (1000 : ℤ)|) ∧
      ((100 < 900 ∨ 900 + 2 ≤ 100) →
        |(k.avg_clicks : ℤ) - (100 : ℤ)| < |(900 : ℤ) - (100 : ℤ)|) ∧
      ((1000 < 9000 ∨ 9000 + 2 ≤ 1000) →
        |(k.avg_fraud_rate : ℤ) - (1000 : ℤ)| < |(9000 : ℤ) - (1000 : ℤ)|) ∧
      ((80 < 10 ∨ 10 + 2 ≤ 80) →
        |(k.avg_quality_score : ℤ) - (80 : ℤ)| < |(10 : ℤ) - (80 : ℤ)|) :=
  C5_outlier_dilution 2 (by decide) (by decide) (some 2) 7 100
    1000 100 1000 80 9000 900 9000 10 (by decide) (by decide) (by decide)
    (by decide) (by decide)

end PulsarTrack
